import Mathlib

/-!
# sparrow: connection and subscription layer of `client/client.go`

A shallow embedding of the client of `github.com/amrav/sparrow`: the hub
listeners and `handleHubMessages`, the client listeners and
`publishToListeners`, the UDP loop of `StartActiveMode`, `Connect`,
`transmit` and `handleActiveConn`.

* Go strings and `[]byte` values are sequences of bytes: `Str := List Nat`.
* A buffered Go channel is its buffer, its capacity and its closed flag.
  A `Done` channel is only ever closed, so it is the flag "closed".
* A listener carries the state of its own `Messages` channel, since every
  listener is created with a fresh channel.
* The code is run one goroutine at a time: while a publish cycle runs, no
  consumer reads and no `Done` channel changes.
* Where Go chooses at random (a `select` with several cases that can
  proceed, several goroutines receiving from one channel) the choice is an
  argument of the function.
* A run ends in a result or in a fault: `log.Fatal`, a Go panic, a send
  that can never complete.
* `proto.LockToKey` is an argument of the functions that call it.
* Whether a `Write` to a connection succeeds, and the largest byte slice
  `make` allocates, are given by the environment.
* `int` has 64 bits.
-/

namespace Sparrow

/-- Bytes of a Go string or of a byte slice. -/
abbrev Str := List Nat

/-- The bytes of an ASCII literal of the source. -/
def ascii (s : String) : Str := s.data.map Char.toNat

/-- How a run stops without a result: `log.Fatal` (process exit), a Go
panic (process abort), a channel send that blocks for ever, or a call of a
library function on an input its model here does not cover. -/
inductive Fault where
  | fatal
  | panic
  | blocked
  | unmodelled
  deriving DecidableEq, Repr

/-- A buffered channel `make(chan α, cap)`. -/
structure Chan (α : Type) where
  buf : List α
  cap : Nat
  closed : Bool
  deriving DecidableEq, Repr

/-- The channel `make(chan α, cap)`. -/
def Chan.make {α : Type} (cap : Nat) : Chan α := ⟨[], cap, false⟩

/-- A send case of a `select` can proceed: the buffer has room, or the
channel is closed (the send then panics). -/
def Chan.canSend {α : Type} (q : Chan α) : Bool :=
  q.closed || decide (q.buf.length < q.cap)

/-- The send `q <- x`, taken when it can proceed. -/
def Chan.send {α : Type} (q : Chan α) (x : α) : Except Fault (Chan α) :=
  if q.closed then .error .panic else .ok { q with buf := q.buf ++ [x] }

/-- The call `close(q)`: closing a closed channel panics. -/
def Chan.close {α : Type} (q : Chan α) : Except Fault (Chan α) :=
  if q.closed then .error .panic else .ok { q with closed := true }

/-- Capacity of `hubListeners` and of every per-nick listener channel:
`make(chan listener, 1000)`. -/
def poolCap : Nat := 1000

/-- The blocking send `pool <- l` on a listener pool. -/
def poolSend {α : Type} (pool : List α) (l : α) : Except Fault (List α) :=
  if pool.length < poolCap then .ok (pool ++ [l]) else .error .blocked

/-- The non-blocking send `select { case pool <- l: default: panic(..) }`. -/
def poolTrySend {α : Type} (pool : List α) (l : α) : Except Fault (List α) :=
  if pool.length < poolCap then .ok (pool ++ [l]) else .error .panic

/-! ## Hub listeners -/

/-- The struct `listener`: `Regex` is the `Match` predicate of the compiled
expression, `none` for a nil pointer. -/
structure listener where
  Messages : Chan Str
  Done : Bool
  Regex : Option (Str → Bool)

/-- The test `hl.Regex == nil || hl.Regex.Match(msg)`. -/
def listener.wants (hl : listener) (msg : Str) : Bool :=
  match hl.Regex with
  | none => true
  | some re => re msg

/-- State of one publish cycle of `handleHubMessages`: the buffer of
`c.hubListeners`, and every listener visited so far with its `Messages`
channel as the cycle left it. -/
structure HubCycle where
  hubListeners : List listener
  seen : List listener

/-- The loop `for _, hl := range hls` of `handleHubMessages`. -/
def hubLoop (msg : Str) : List listener → HubCycle → Except Fault HubCycle
  | [], d => .ok d
  | hl :: rest, d =>
    if hl.Done then
      -- case <-hl.Done: close(hl.Messages); continue
      match hl.Messages.close with
      | .error e => .error e
      | .ok q => hubLoop msg rest { d with seen := d.seen ++ [{ hl with Messages := q }] }
    else if hl.wants msg then
      -- select { case hl.Messages <- msg: ..; case <-hl.Done: ..; default: log.Fatal }
      -- Done was found open just above, so its case cannot proceed here
      if hl.Messages.canSend then
        match hl.Messages.send msg with
        | .error e => .error e
        | .ok q =>
          match poolSend d.hubListeners { hl with Messages := q } with
          | .error e => .error e
          | .ok pool => hubLoop msg rest ⟨pool, d.seen ++ [{ hl with Messages := q }]⟩
      else .error .fatal
    else
      match poolSend d.hubListeners hl with
      | .error e => .error e
      | .ok pool => hubLoop msg rest ⟨pool, d.seen ++ [hl]⟩

/-- The per-line body of `handleHubMessages`: drain `c.hubListeners` into
`hls`, then run the loop on the emptied pool. -/
def handleHubMessages (msg : Str) (hubListeners : List listener) : Except Fault HubCycle :=
  hubLoop msg hubListeners ⟨[], []⟩

/-- The method `HubMessagesMatch`: the pool after the call, and the new
channel or the panic. -/
def HubMessagesMatch (hubListeners : List listener) (done : Bool) (re : Option (Str → Bool)) :
    List listener × Except Fault (Chan Str) :=
  let ch : Chan Str := Chan.make 1000
  match poolTrySend hubListeners ⟨ch, done, re⟩ with
  | .ok pool => (pool, .ok ch)
  | .error e => (hubListeners, .error e)


/-! ## Client listeners -/

/-- A value of type `interface{}` sent to client listeners: a protocol line
(a Go string) or a raw byte block (a `[]byte`). -/
inductive Msg where
  | str (s : Str)
  | bytes (b : Str)
  deriving DecidableEq, Repr

/-- The struct `clientListener`. -/
structure clientListener where
  Messages : Chan Msg
  Done : Bool
  deriving DecidableEq, Repr

/-- State of one cycle of `publishToListeners`: the buffer of the
`listeners` channel, and every listener visited so far with its `Messages`
channel as the cycle left it. -/
structure ClientCycle where
  listeners : List clientListener
  seen : List clientListener
  deriving DecidableEq, Repr

/-- The loop `for _, cl := range cls` of `publishToListeners`. Its `select`
has three cases: `<-cl.Done`, `cl.Messages <- msg` and the one-second timer.
When both channel cases can proceed Go picks one of them at random:
`pick i` says that the `Done` case is taken for the listener at position
`i`. The timer case is taken when neither channel case can proceed. -/
def publishLoop (pick : Nat → Bool) (msg : Msg) :
    List clientListener → Nat → ClientCycle → Except Fault ClientCycle
  | [], _, d => .ok d
  | cl :: rest, i, d =>
    if cl.Done && (!cl.Messages.canSend || pick i) then
      -- case <-cl.Done: close(cl.Messages)
      match cl.Messages.close with
      | .error e => .error e
      | .ok q => publishLoop pick msg rest (i + 1) { d with seen := d.seen ++ [{ cl with Messages := q }] }
    else if cl.Messages.canSend then
      -- case cl.Messages <- msg: listeners <- cl
      match cl.Messages.send msg with
      | .error e => .error e
      | .ok q =>
        match poolSend d.listeners { cl with Messages := q } with
        | .error e => .error e
        | .ok pool => publishLoop pick msg rest (i + 1) ⟨pool, d.seen ++ [{ cl with Messages := q }]⟩
    else
      -- case <-time.After(1 * time.Second): log.Fatal
      .error .fatal

/-- The function `publishToListeners` on a non-nil channel: drain the
channel into `cls`, then run the loop on the emptied channel. -/
def publishToListeners (pick : Nat → Bool) (msg : Msg) (listeners : List clientListener) :
    Except Fault ClientCycle :=
  publishLoop pick msg listeners 0 ⟨[], []⟩

/-- The map `clientListeners.m`, from nick to the channel of listeners. -/
abbrev Registry := Str → Option (List clientListener)

/-- The assignment `m[nick] = pool`. -/
def Registry.set (m : Registry) (nick : Str) (pool : List clientListener) : Registry :=
  fun k => if k = nick then some pool else m k

/-- The call `delete(m, nick)`. -/
def Registry.delete (m : Registry) (nick : Str) : Registry :=
  fun k => if k = nick then none else m k

/-- The method `ClientMessages`: the registry after the call, and the new
channel or the panic. -/
def ClientMessages (m : Registry) (nick : Str) (done : Bool) :
    Registry × Except Fault (Chan Msg) :=
  let ch : Chan Msg := Chan.make 100
  let l : clientListener := ⟨ch, done⟩
  -- clc, ok := m[nick]; if !ok { m[nick] = make(chan clientListener, 1000) }
  let m1 : Registry := match m nick with
    | some _ => m
    | none => m.set nick []
  let clc : List clientListener := (m1 nick).getD []
  match poolTrySend clc l with
  | .ok pool => (m1.set nick pool, .ok ch)
  | .error e => (m1, .error e)

/-! ## Active mode: the UDP loop -/

/-- The call `udpConn.ReadFromUDP(buf)`: the datagram is copied to the front
of `buf`, cut to the length of `buf`; the rest of `buf` is left as it was.
Returns the buffer and the number of bytes copied. -/
def ReadFromUDP (buf : Str) (datagram : Str) : Str × Nat :=
  let n := min datagram.length buf.length
  (datagram.take n ++ buf.drop n, n)

/-- The message one turn of the UDP loop of `StartActiveMode` publishes:
`buf := make([]byte, 2048)`, the read, whose byte count is dropped, and
`string(buf)`. -/
def udpMessage (datagram : Str) : Msg :=
  let buf : Str := List.replicate 2048 0
  let r := ReadFromUDP buf datagram
  Msg.str r.1

/-- One turn of the UDP loop of `StartActiveMode` on the listeners of `*`. -/
def udpTurn (pick : Nat → Bool) (datagram : Str) (all_cls : List clientListener) :
    Except Fault ClientCycle :=
  publishToListeners pick (udpMessage datagram) all_cls

/-! ## Library functions on strings

Models of the functions of the Go standard library that the client calls on
strings: `strings.HasPrefix`, `strings.Fields`, `strconv.Atoi` and
`fmt.Sprintf`, with the UTF-8 decoding they rest on. -/

/-- The function `strings.HasPrefix`. -/
def HasPrefix (s pre : Str) : Bool := pre.isPrefixOf s

/-- The constant `utf8.RuneError`. -/
def RuneError : Nat := 0xFFFD

/-- Length of the UTF-8 sequence a first byte announces, `0` for a byte that
cannot start a sequence (table `first` of package `utf8`). -/
def seqSize (s0 : Nat) : Nat :=
  if s0 < 0x80 then 1
  else if 0xC2 ≤ s0 ∧ s0 ≤ 0xDF then 2
  else if 0xE0 ≤ s0 ∧ s0 ≤ 0xEF then 3
  else if 0xF0 ≤ s0 ∧ s0 ≤ 0xF4 then 4
  else 0

/-- Lowest second byte accepted after first byte `s0` (table `acceptRanges`). -/
def acceptLo (s0 : Nat) : Nat :=
  if s0 = 0xE0 then 0xA0 else if s0 = 0xF0 then 0x90 else 0x80

/-- Highest second byte accepted after first byte `s0` (table `acceptRanges`). -/
def acceptHi (s0 : Nat) : Nat :=
  if s0 = 0xED then 0x9F else if s0 = 0xF4 then 0x8F else 0xBF

/-- The function `utf8.DecodeRuneInString`: the first rune of `s` and its
width in bytes; `(RuneError, 1)` for an invalid or cut sequence. -/
def DecodeRuneInString : Str → Nat × Nat
  | [] => (RuneError, 0)
  | s0 :: t =>
    if s0 < 0x80 then (s0, 1)
    else if seqSize s0 = 0 then (RuneError, 1)
    else
      match t with
      | [] => (RuneError, 1)
      | s1 :: t1 =>
        if s1 < acceptLo s0 ∨ acceptHi s0 < s1 then (RuneError, 1)
        else if seqSize s0 ≤ 2 then ((s0 % 32) * 64 + s1 % 64, 2)
        else
          match t1 with
          | [] => (RuneError, 1)
          | s2 :: t2 =>
            if s2 < 0x80 ∨ 0xBF < s2 then (RuneError, 1)
            else if seqSize s0 ≤ 3 then ((s0 % 16) * 4096 + (s1 % 64) * 64 + s2 % 64, 3)
            else
              match t2 with
              | [] => (RuneError, 1)
              | s3 :: _ =>
                if s3 < 0x80 ∨ 0xBF < s3 then (RuneError, 1)
                else ((s0 % 8) * 262144 + (s1 % 64) * 4096 + (s2 % 64) * 64 + s3 % 64, 4)

/-- The function `utf8.AppendRune` on an empty slice: the UTF-8 bytes of a
rune, those of `RuneError` for a surrogate or a value out of range. -/
def EncodeRune (r : Nat) : Str :=
  if r < 0x80 then [r]
  else if r < 0x800 then [0xC0 + r / 64, 0x80 + r % 64]
  else if (0xD800 ≤ r ∧ r ≤ 0xDFFF) ∨ 0x10FFFF < r then [0xEF, 0xBF, 0xBD]
  else if r < 0x10000 then [0xE0 + r / 4096, 0x80 + (r / 64) % 64, 0x80 + r % 64]
  else [0xF0 + r / 262144, 0x80 + (r / 4096) % 64, 0x80 + (r / 64) % 64, 0x80 + r % 64]

/-- The function `unicode.IsSpace`. -/
def IsSpace (r : Nat) : Bool :=
  (0x09 ≤ r && r ≤ 0x0D) || r = 0x20 || r = 0x85 || r = 0xA0 || r = 0x1680 ||
  (0x2000 ≤ r && r ≤ 0x200A) || r = 0x2028 || r = 0x2029 || r = 0x202F || r = 0x205F ||
  r = 0x3000

/-- The runes of `for end, rune := range s`, each with its bytes in `s`. -/
def runesGo : Nat → Str → List (Nat × Str)
  | 0, _ => []
  | _ + 1, [] => []
  | fuel + 1, s0 :: t =>
    let d := DecodeRuneInString (s0 :: t)
    (d.1, (s0 :: t).take d.2) :: runesGo fuel ((s0 :: t).drop d.2)

/-- The runes of a string: every rune takes at least one byte, so the
length of the string is fuel enough. -/
def runes (s : Str) : List (Nat × Str) := runesGo s.length s

/-- The loop of `strings.FieldsFunc(s, unicode.IsSpace)` over the runes of
`s`: `cur` is the field being read, `inField` says that one is open. -/
def fieldsOf : List (Nat × Str) → Str → Bool → List Str
  | [], cur, inField => if inField then [cur] else []
  | (r, bs) :: t, cur, inField =>
    if IsSpace r then (if inField then [cur] else []) ++ fieldsOf t [] false
    else fieldsOf t (cur ++ bs) true

/-- The function `strings.Fields`: the maximal runs of non-space runes. (Its
fast path for ASCII-only strings returns the same slices.) -/
def Fields (s : Str) : List Str := fieldsOf (runes s) [] false

/-- The digit loop of `strconv.Atoi`. -/
def parseDigits : Str → Nat → Option Nat
  | [], acc => some acc
  | c :: t, acc => if 48 ≤ c ∧ c ≤ 57 then parseDigits t (acc * 10 + (c - 48)) else none

/-- The function `strconv.Atoi` for a 64-bit `int`: an optional sign and at
least one decimal digit, the value within the range of `int`; `none` for an
error (syntax or range). -/
def Atoi (s : Str) : Option Int :=
  match s with
  | [] => none
  | c :: t =>
    let body := if c = 45 ∨ c = 43 then t else c :: t
    if body = [] then none
    else
      match parseDigits body 0 with
      | none => none
      | some n =>
        if c = 45 then (if n ≤ 2 ^ 63 then some (-(n : Int)) else none)
        else (if n < 2 ^ 63 then some (n : Int) else none)

/-- An operand of `fmt.Sprintf` in this client: a `string` or a `uint64`. -/
inductive Arg where
  | str (s : Str)
  | uint (n : Nat)
  deriving DecidableEq, Repr

/-- The digit loop of `parsenum` of package `fmt`: a number above `1e6` is
"too large" and moves the position to the end of the format. -/
def parsenumGo : Str → Nat → Bool → Nat × Bool × Str
  | [], num, isnum => (num, isnum, [])
  | c :: t, num, isnum =>
    if 48 ≤ c ∧ c ≤ 57 then
      (if 1000000 < num then (0, false, []) else parsenumGo t (num * 10 + (c - 48)) true)
    else (num, isnum, c :: t)

/-- The function `parsenum` of package `fmt`: the number read, whether
there was one, and the rest of the format. -/
def parsenum (s : Str) : Nat × Bool × Str := parsenumGo s 0 false

/-- The function `parseArgNumber` of package `fmt` on a format that starts
with `[`: the width of the bracketed index and whether it is well formed. -/
def parseArgNumber (format : Str) : Nat × Bool :=
  if format.length < 3 then (1, false)
  else
    match (format.drop 1).indexOf? 0x5D with
    | none => (1, false)
    | some j =>
      -- the closing bracket is at position j + 1
      let r := parsenum ((format.drop 1).take j)
      if !r.2.1 || r.2.2 ≠ [] then (j + 2, false) else (j + 2, true)

/-- The method `argNumber` of package `fmt` when there is no operand: the
rest of the format, the result `found`, and whether an index was met (no
index is in range, so `goodArgNum` is then false). -/
def argNumber0 (s : Str) : Str × Bool × Bool :=
  match s with
  | 0x5B :: _ =>
    let r := parseArgNumber s
    (s.drop r.1, r.2, true)
  | _ => (s, false, false)

/-- A flag byte of a format directive: one of `#0+- `. -/
def isFlag (c : Nat) : Bool := c = 0x23 || c = 0x30 || c = 0x2B || c = 0x2D || c = 0x20

/-- One directive of `doPrintf` of package `fmt` when there is no operand,
on the format after the `%`: what is written, and the rest of the format. -/
def directive0 (s : Str) : Str × Str :=
  let s1 := s.dropWhile isFlag
  let a1 := argNumber0 s1
  -- width
  let w : Str × Str × Bool × Bool :=
    match a1.1 with
    | 0x2A :: t => (ascii "%!(BADWIDTH)", t, false, false)
    | s2 =>
      let r := parsenum s2
      ([], r.2.2, a1.2.1, a1.2.1 && r.2.1)
  -- precision
  let p : Str × Str × Bool × Bool :=
    match w.2.1 with
    | 0x2E :: t =>
      let a2 := argNumber0 t
      match a2.1 with
      | 0x2A :: t2 => (ascii "%!(BADPREC)", t2, false, w.2.2.1 || a2.2.2)
      | t1 => ([], (parsenum t1).2.2, a2.2.1, w.2.2.1 || a2.2.2)
    | s3 => ([], s3, w.2.2.1, false)
  let a3 := if p.2.2.1 then (p.2.1, true, false) else argNumber0 p.2.1
  let bad := a1.2.2 || w.2.2.2 || p.2.2.2 || a3.2.2
  match a3.1 with
  | [] => (w.1 ++ p.1 ++ ascii "%!(NOVERB)", [])
  | c :: t =>
    let d := if c < 0x80 then (c, 1) else DecodeRuneInString (c :: t)
    let rest := (c :: t).drop d.2
    if d.1 = 0x25 then (w.1 ++ p.1 ++ [0x25], rest)
    else if bad then (w.1 ++ p.1 ++ ascii "%!" ++ EncodeRune d.1 ++ ascii "(BADINDEX)", rest)
    else (w.1 ++ p.1 ++ ascii "%!" ++ EncodeRune d.1 ++ ascii "(MISSING)", rest)

/-- The loop of `doPrintf` of package `fmt` when there is no operand. -/
def sprintf0Go : Nat → Str → Str
  | 0, _ => []
  | _ + 1, [] => []
  | fuel + 1, c :: t =>
    if c = 0x25 then
      let r := directive0 t
      r.1 ++ sprintf0Go fuel r.2
    else c :: sprintf0Go fuel t

/-- The call `fmt.Sprintf(format)` without operand: every step takes at
least one byte, so the length of the format is fuel enough. -/
def sprintf0 (format : Str) : Str := sprintf0Go format.length format

/-- The decimal digits of a number, as `%d` writes a `uint64`. -/
def decimal (n : Nat) : Str := (Nat.toDigits 10 n).map Char.toNat

/-- The call `fmt.Sprintf(format, a...)` with operands, for the directives
the client uses: `%s` and `%v` of a string, `%d` and `%v` of a `uint64`,
and `%%`, each without flag, width or precision. Any other directive, and
an operand left over, is outside this model: `none`. -/
def sprintfArgs : Str → List Arg → Option Str
  | [], [] => some []
  | [], _ :: _ => none
  | [_], _ :: _ => none
  | 0x25 :: v :: t, a =>
    if v = 0x25 then (sprintfArgs t a).map (0x25 :: ·)
    else
      match a with
      | Arg.str x :: a1 =>
        if v = 0x73 ∨ v = 0x76 then (sprintfArgs t a1).map (x ++ ·) else none
      | Arg.uint n :: a1 =>
        if v = 0x64 ∨ v = 0x76 then (sprintfArgs t a1).map (decimal n ++ ·) else none
      | [] => none
  | c :: t, a => if c = 0x25 then none else (sprintfArgs t a).map (c :: ·)

/-- The function `fmt.Sprintf`. -/
def Sprintf (format : Str) (a : List Arg) : Option Str :=
  match a with
  | [] => some (sprintf0 format)
  | _ => sprintfArgs format a

/-! ## The hub session: `Connect` -/

/-- The struct `proto.User`, without the file list. -/
structure User where
  Nick : Str
  ShareSize : Nat
  deriving DecidableEq, Repr

/-- The struct `outboxMsg`. -/
structure outboxMsg where
  To : Str
  Msg : Str
  deriving DecidableEq, Repr

/-- The method `MessageHub`: format, then send on `c.outbox` with
destination `""`. -/
def MessageHub (outbox : List outboxMsg) (msg : Str) (args : List Arg) :
    Except Fault (List outboxMsg) :=
  match Sprintf msg args with
  | none => .error .unmodelled
  | some m => .ok (outbox ++ [⟨[], m⟩])

/-- The method `MsgClient`: format, then send on `c.outbox` with
destination `nick`. -/
def MsgClient (outbox : List outboxMsg) (nick : Str) (msg : Str) (args : List Arg) :
    Except Fault (List outboxMsg) :=
  match Sprintf msg args with
  | none => .error .unmodelled
  | some m => .ok (outbox ++ [⟨nick, m⟩])

/-- The format of the `$MyINFO` message in `Connect`. -/
def myInfoFormat : Str := ascii "$MyINFO $ALL %s <gdc V:0.0.0,M:A,H:1/0/0,S:3>$ $10^Q$$%d$|"

/-- The body of the loop `for m := range msg` of `Connect` on one line:
the outbox afterwards, and whether the loop is left by `break`.
`LockToKey` is `proto.LockToKey`. -/
def connectLine (LockToKey : Str → Str) (u : User) (ms : Str) (outbox : List outboxMsg) :
    Except Fault (List outboxMsg × Bool) :=
  let sent : Except Fault (List outboxMsg) :=
    if HasPrefix ms (ascii "$Lock ") then
      match (Fields ms)[1]? with
      | none => .error .panic
      | some lock =>
        let key := LockToKey lock
        match MessageHub outbox (ascii "$Key %s|") [Arg.str key] with
        | .error e => .error e
        | .ok o1 =>
          match MessageHub o1 (ascii "$ValidateNick %s|") [Arg.str u.Nick] with
          | .error e => .error e
          | .ok o2 =>
            match MessageHub o2 (ascii "$Version 1,0091|") [] with
            | .error e => .error e
            | .ok o3 =>
              match Sprintf myInfoFormat [Arg.str u.Nick, Arg.uint u.ShareSize] with
              | none => .error .unmodelled
              | some info => MessageHub o3 info []
    else .ok outbox
  match sent with
  | .error e => .error e
  | .ok o => .ok (o, HasPrefix ms (ascii "$Hello "))

/-- A run of the loop of `Connect`: the outbox, the number of lines taken
from the channel, and whether `Connect` has returned. When it has not, the
loop waits for the next line. -/
structure ConnectRun where
  outbox : List outboxMsg
  taken : Nat
  returned : Bool
  deriving DecidableEq, Repr

/-- The loop `for m := range msg` of `Connect` over the lines the hub
listener delivers. -/
def connectLoop (LockToKey : Str → Str) (u : User) :
    List Str → ConnectRun → Except Fault ConnectRun
  | [], r => .ok r
  | ms :: rest, r =>
    match connectLine LockToKey u ms r.outbox with
    | .error e => .error e
    | .ok (o, true) => .ok ⟨o, r.taken + 1, true⟩
    | .ok (o, false) => connectLoop LockToKey u rest ⟨o, r.taken + 1, false⟩

/-- The method `Connect`, from the loop on: `outbox` is the content of
`c.outbox` before, `lines` what the hub sends. -/
def Connect (LockToKey : Str → Str) (u : User) (outbox : List outboxMsg) (lines : List Str) :
    Except Fault ConnectRun :=
  connectLoop LockToKey u lines ⟨outbox, 0, false⟩

/-! ## The outbound router: `transmit`

Connections are named by numbers. A serializer goroutine
`for msg := range ch { sendClient(..) }` takes a message as soon as one is
in its channel, so a channel with a serializer is always empty and a
channel without one keeps its messages until a serializer is started. -/

/-- The network: whether the next `Write` succeeds. `accepts log conn` is
the answer for a write to the peer connection `conn` when `log` has been
written to peer connections so far; `hubAccepts log` the answer for a write
to `c.hubConn` when `log` has been written to it so far. -/
structure Net where
  accepts : List (Nat × Str) → Nat → Bool
  hubAccepts : List Str → Bool

/-- A network on which every write succeeds. -/
def Net.working : Net := ⟨fun _ _ => true, fun _ => true⟩

/-- The function `sendClient`: format, then write to the connection; a
write error ends the process with `log.Fatal`. `written` is the log of
writes, as pairs of connection and bytes. -/
def sendClient (net : Net) (written : List (Nat × Str)) (conn : Nat) (msg : Str)
    (args : List Arg) : Except Fault (List (Nat × Str)) :=
  match Sprintf msg args with
  | none => .error .unmodelled
  | some m =>
    -- _, err := conn.Write([]byte(msg)); if err != nil { log.Fatal(..) }
    if net.accepts written conn then .ok (written ++ [(conn, m)]) else .error .fatal

/-- The struct `clientUpdate`. -/
structure clientUpdate where
  Nick : Str
  Update : Str
  Conn : Nat
  deriving DecidableEq, Repr

/-- What `transmit` receives in its `select`: a message from `c.outbox` or
an update from `c.clientUpdates`. -/
inductive TransmitInput where
  | outbox (m : outboxMsg)
  | clientUpdates (u : clientUpdate)
  deriving DecidableEq, Repr

/-- A channel of `clientMsgs` with the serializer goroutines started on it:
`buf` is what waits in the channel, `writers` the connections of the
goroutines that range over it, in the order they were started. -/
structure ClientQueue where
  buf : List Str
  writers : List Nat
  deriving DecidableEq, Repr

/-- State of `transmit`: what the hub transmitter wrote to `c.hubConn`, the
map `clientMsgs`, the log of writes to peer connections, and the number of
messages serializers have taken so far. -/
structure Transmit where
  hubWritten : List Str
  clientMsgs : Str → Option ClientQueue
  written : List (Nat × Str)
  taken : Nat

/-- The state of `transmit` when it starts. -/
def Transmit.init : Transmit := ⟨[], fun _ => none, [], 0⟩

/-- The assignment `clientMsgs[nick] = q`. -/
def Transmit.setQueue (t : Transmit) (nick : Str) (q : ClientQueue) : Str → Option ClientQueue :=
  fun k => if k = nick then some q else t.clientMsgs k

/-- A serializer started on a channel writes what waits in it, in order:
`sendClient(u.Conn, u.Nick, msg)` for each message. -/
def sendAll (net : Net) (written : List (Nat × Str)) (conn : Nat) :
    List Str → Except Fault (List (Nat × Str))
  | [] => .ok written
  | msg :: rest =>
    match sendClient net written conn msg [] with
    | .error e => .error e
    | .ok w => sendAll net w conn rest

/-- One turn of the loop of `transmit`. When several serializers range over
one channel, Go hands a message to any one of them: `pick k` chooses the
serializer of the `k`-th message taken. -/
def transmitStep (net : Net) (pick : Nat → Nat) (t : Transmit) :
    TransmitInput → Except Fault Transmit
  | .outbox m =>
    if m.To = [] then
      -- hubMsgs <- m.Msg, and the hub transmitter:
      -- _, err := c.hubConn.Write([]byte(m)); if err != nil { log.Fatal(..) }
      if net.hubAccepts t.hubWritten then .ok { t with hubWritten := t.hubWritten ++ [m.Msg] }
      else .error .fatal
    else
      -- if _, ok := clientMsgs[m.To]; !ok { clientMsgs[m.To] = make(chan string, 1000) }
      let q : ClientQueue := (t.clientMsgs m.To).getD ⟨[], []⟩
      -- clientMsgs[m.To] <- m.Msg
      match q.writers with
      | [] =>
        if q.buf.length < 1000 then
          .ok { t with clientMsgs := t.setQueue m.To { q with buf := q.buf ++ [m.Msg] } }
        else .error .blocked
      | w :: ws =>
        let conn := (w :: ws).getD (pick t.taken % (ws.length + 1)) w
        match sendClient net t.written conn m.Msg [] with
        | .error e => .error e
        | .ok written =>
          .ok { t with clientMsgs := t.setQueue m.To q, written := written, taken := t.taken + 1 }
  | .clientUpdates u =>
    if u.Update = ascii "connected" then
      let q : ClientQueue := (t.clientMsgs u.Nick).getD ⟨[], []⟩
      -- go func(ch chan string) { for msg := range ch { sendClient(u.Conn, u.Nick, msg) } }
      match sendAll net t.written u.Conn q.buf with
      | .error e => .error e
      | .ok written =>
        .ok { t with clientMsgs := t.setQueue u.Nick ⟨[], q.writers ++ [u.Conn]⟩,
                     written := written, taken := t.taken + q.buf.length }
    else if u.Update = ascii "disconnected" then
      -- close(clientMsgs[u.Nick]); delete(clientMsgs, u.Nick)
      match t.clientMsgs u.Nick with
      | none => .error .panic
      | some _ => .ok { t with clientMsgs := fun k => if k = u.Nick then none else t.clientMsgs k }
    else .ok t

/-- The loop of `transmit` over a sequence of inputs. -/
def transmitRun (net : Net) (pick : Nat → Nat) :
    Transmit → List TransmitInput → Except Fault Transmit
  | t, [] => .ok t
  | t, e :: rest =>
    match transmitStep net pick t e with
    | .error f => .error f
    | .ok t1 => transmitRun net pick t1 rest

/-- The method `transmit`, from its start, over the inputs it receives. -/
def transmit (net : Net) (pick : Nat → Nat) (inputs : List TransmitInput) :
    Except Fault Transmit :=
  transmitRun net pick Transmit.init inputs

/-! ## The peer session: `handleActiveConn`

The bytes the peer delivers are a finite list; reading past its end is a
read error (the peer has closed the connection). The channels `cls` and
`all_cls` are named by their key in `clientListeners.m`: within one session
the channel of a key is not replaced, and `none` stands for a nil channel. -/

/-- A run of `handleActiveConn`: what the reader has not read yet, the
variables `otherNick`, `cls` and `all_cls`, the map `clientListeners.m`, the
listeners whose `Messages` channel has been closed, what was sent on
`c.clientUpdates`, the writes to connections, and the number of publish
cycles so far. -/
structure PeerSession where
  reader : Str
  otherNick : Str
  cls : Option Str
  all_cls : Option Str
  m : Registry
  closed : List clientListener
  clientUpdates : List clientUpdate
  written : List (Nat × Str)
  cycles : Nat

/-- The method `reader.ReadString(delim)`: the bytes up to and including the
first `delim`, and the rest; `none` (an error) when there is no `delim`. -/
def ReadString : Str → Nat → Option (Str × Str)
  | [], _ => none
  | b :: t, delim =>
    if b = delim then some ([b], t)
    else (ReadString t delim).map fun p => (b :: p.1, p.2)

/-- The call `io.ReadFull(reader, buf)` for a buffer of `n` bytes: the
buffer filled and the rest; `none` (an error) when fewer than `n` bytes
come. -/
def ReadFull (reader : Str) (n : Nat) : Option (Str × Str) :=
  if n ≤ reader.length then some (reader.take n, reader.drop n) else none

/-- What a peer session takes from outside: `proto.LockToKey`, the random
choices of the `select` in `publishToListeners` (`sched k` is the choice
function of the `k`-th publish cycle), the network, and `maxAlloc`, the
largest `n` for which `make([]byte, n)` returns a slice: above it the
runtime aborts the process (`panic: runtime error: makeslice: len out of
range` beyond the bound of the address space, 2^48 bytes on 64-bit Linux;
out of memory below it). -/
structure PeerEnv where
  LockToKey : Str → Str
  sched : Nat → Nat → Bool
  net : Net
  maxAlloc : Nat

/-- The call `publishToListeners(msg, ch)` in a session, `ch` being `cls` or
`all_cls`: nothing is received from a nil channel. -/
def publishTopic (sched : Nat → Nat → Bool) (msg : Msg) (key : Option Str) (s : PeerSession) :
    Except Fault PeerSession :=
  match key with
  | none => .ok { s with cycles := s.cycles + 1 }
  | some k =>
    match s.m k with
    | none => .ok { s with cycles := s.cycles + 1 }
    | some pool =>
      match publishToListeners (sched s.cycles) msg pool with
      | .error e => .error e
      | .ok d =>
        .ok { s with m := s.m.set k d.listeners,
                     closed := s.closed ++ d.seen.filter fun l => l.Messages.closed,
                     cycles := s.cycles + 1 }

/-- The two calls `publishToListeners(msg, cls)` and
`publishToListeners(msg, all_cls)`. -/
def publishBoth (sched : Nat → Nat → Bool) (msg : Msg) (s : PeerSession) :
    Except Fault PeerSession :=
  match publishTopic sched msg s.cls s with
  | .error e => .error e
  | .ok s1 => publishTopic sched msg s1.all_cls s1

/-- The branch `if strings.HasPrefix(msg, "$MyNick ")` of `handleActiveConn`. -/
def myNickStep (net : Net) (conn : Nat) (msg : Str) (s : PeerSession) :
    Except Fault PeerSession :=
  if HasPrefix msg (ascii "$MyNick ") then
    -- otherNick = strings.Fields(msg)[1]
    match (Fields msg)[1]? with
    | none => .error .panic
    | some f =>
      -- otherNick = otherNick[:len(otherNick)-1]
      if f.length = 0 then .error .panic
      else
        let otherNick := f.take (f.length - 1)
        let updates := s.clientUpdates ++ [⟨otherNick, ascii "connected", conn⟩]
        let m1 : Registry := match s.m otherNick with
          | some _ => s.m
          | none => s.m.set otherNick []
        match sendClient net s.written conn
            (ascii "$Lock EXTENDEDPROTOCOL/wut? Pk=gdc,Ref=10.109.49.49:411|") [] with
        | .error e => .error e
        | .ok written =>
          .ok { s with otherNick := otherNick, cls := some otherNick, m := m1,
                       clientUpdates := updates, written := written }
  else .ok s

/-- The branch `if strings.HasPrefix(msg, "$Lock")` of `handleActiveConn`. -/
def lockStep (LockToKey : Str → Str) (net : Net) (conn : Nat) (msg : Str) (s : PeerSession) :
    Except Fault PeerSession :=
  if HasPrefix msg (ascii "$Lock") then
    match sendClient net s.written conn (ascii "$Supports MiniSlots XmlBZList ADCGet TTHL TTHF|") [] with
    | .error e => .error e
    | .ok w1 =>
      match sendClient net w1 conn (ascii "$Direction Download 29000|") [] with
      | .error e => .error e
      | .ok w2 =>
        match (Fields msg)[1]? with
        | none => .error .panic
        | some f =>
          match sendClient net w2 conn (ascii "$Key %s|") [Arg.str (LockToKey f)] with
          | .error e => .error e
          | .ok w3 => .ok { s with written := w3 }
  else .ok s

/-- The loop that closes the `Messages` channel of every listener left in
`cls`. -/
def closeAll : List clientListener → Except Fault (List clientListener)
  | [] => .ok []
  | l :: rest =>
    match l.Messages.close with
    | .error e => .error e
    | .ok q =>
      match closeAll rest with
      | .error e => .error e
      | .ok ls => .ok ({ l with Messages := q } :: ls)

/-- The branch `if strings.HasPrefix(msg, "$ADCSND file")` of
`handleActiveConn`, taken after the line has been published: the session
afterwards, and `true` since the function returns. -/
def adcsndStep (sched : Nat → Nat → Bool) (maxAlloc : Nat) (msg : Str) (s : PeerSession) :
    Except Fault PeerSession :=
  -- fields := strings.Fields(msg); fields[4][0 : len(fields[4])-1]
  match (Fields msg)[4]? with
  | none => .error .panic
  | some f =>
    if f.length = 0 then .error .panic
    else
      match Atoi (f.take (f.length - 1)) with
      | none => .error .fatal
      | some numBytes =>
        -- buf := make([]byte, numBytes)
        if numBytes < 0 ∨ maxAlloc < numBytes.toNat then .error .panic
        else
          match ReadFull s.reader numBytes.toNat with
          | none => .error .fatal
          | some (buf, rest) =>
            match publishBoth sched (Msg.bytes buf) { s with reader := rest } with
            | .error e => .error e
            | .ok s1 =>
              -- delete(c.clientListeners.m, otherNick), then drain cls
              let left : List clientListener :=
                match s1.cls with
                | none => []
                | some k => (s1.m k).getD []
              match closeAll left with
              | .error e => .error e
              | .ok ls => .ok { s1 with m := s1.m.delete s1.otherNick, closed := s1.closed ++ ls }

/-- The body of the loop of `handleActiveConn` on one line that has been
read: the session afterwards, and whether the function returns. -/
def handleLine (env : PeerEnv) (conn : Nat) (msg : Str) (s : PeerSession) :
    Except Fault (PeerSession × Bool) :=
  match myNickStep env.net conn msg s with
  | .error e => .error e
  | .ok s1 =>
    match lockStep env.LockToKey env.net conn msg s1 with
    | .error e => .error e
    | .ok s2 =>
      match publishBoth env.sched (Msg.str msg) s2 with
      | .error e => .error e
      | .ok s3 =>
        if HasPrefix msg (ascii "$ADCSND file") then
          match adcsndStep env.sched env.maxAlloc msg s3 with
          | .error e => .error e
          | .ok s4 => .ok (s4, true)
        else .ok (s3, false)

/-- The loop `for { msg, err := reader.ReadString('|') .. }` of
`handleActiveConn`. Every turn reads at least one byte or ends the run, so
fuel above the number of unread bytes is never used up. -/
def sessionLoop (env : PeerEnv) (conn : Nat) : Nat → PeerSession → Except Fault PeerSession
  | 0, _ => .error .unmodelled
  | fuel + 1, s =>
    match ReadString s.reader 0x7C with
    | none => .error .fatal
    | some (msg, rest) =>
      match handleLine env conn msg { s with reader := rest } with
      | .error e => .error e
      | .ok (s1, true) => .ok s1
      | .ok (s1, false) => sessionLoop env conn fuel s1

/-- The method `handleActiveConn` on a connection `conn` from the address
`remote` that delivers the bytes `input`: a result is the session at the
`return`. -/
def handleActiveConn (env : PeerEnv) (u : User) (conn : Nat) (remote : Str) (input : Str)
    (m : Registry) : Except Fault PeerSession :=
  match sendClient env.net [] conn (ascii "$MyNick %s|") [Arg.str u.Nick] with
  | .error e => .error e
  | .ok written =>
    sessionLoop env conn (input.length + 1)
      { reader := input, otherNick := remote, cls := none,
        all_cls := if (m (ascii "*")).isSome then some (ascii "*") else none,
        m := m, closed := [], clientUpdates := [], written := written, cycles := 0 }

/-! ## Definitions used to state the properties -/

/-- What one publish cycle of the hub does to a listener with room in an
open `Messages` channel: a cancelled listener has its channel closed; a
live one gets the line when it has no expression or its expression matches
the line, and is left as it is otherwise. -/
def hubPost (msg : Str) (hl : listener) : listener :=
  if hl.Done then { hl with Messages := { hl.Messages with closed := true } }
  else
    match hl.Regex with
    | none => { hl with Messages := { hl.Messages with buf := hl.Messages.buf ++ [msg] } }
    | some re =>
      if re msg then { hl with Messages := { hl.Messages with buf := hl.Messages.buf ++ [msg] } }
      else hl

/-- A string without whitespace: none of its runes is a space. -/
def noSpace (w : Str) : Bool := (runes w).all fun p => !IsSpace p.1

/-- The four messages `Connect` sends to the hub for a `$Lock ` line. -/
def lockReplies (LockToKey : Str → Str) (u : User) (ms : Str) : List outboxMsg :=
  match (Fields ms)[1]? with
  | none => []
  | some lock =>
    [⟨[], ascii "$Key " ++ LockToKey lock ++ ascii "|"⟩,
     ⟨[], ascii "$ValidateNick " ++ u.Nick ++ ascii "|"⟩,
     ⟨[], ascii "$Version 1,0091|"⟩,
     ⟨[], ascii "$MyINFO $ALL " ++
        sprintf0 (u.Nick ++ ascii " <gdc V:0.0.0,M:A,H:1/0/0,S:3>$ $10^Q$$" ++
          decimal u.ShareSize ++ ascii "$|")⟩]

/-- Number of serializer goroutines that range over the channel of `nick`. -/
def serializers (t : Transmit) (nick : Str) : Nat :=
  match t.clientMsgs nick with
  | none => 0
  | some q => q.writers.length

/-- Number of `connected` updates for `nick` in a sequence of inputs since
the last `disconnected` update for `nick`; `n` is the number before the
sequence. -/
def connectedSince (nick : Str) : Nat → List TransmitInput → Nat
  | n, [] => n
  | n, .outbox _ :: rest => connectedSince nick n rest
  | n, .clientUpdates u :: rest =>
    if u.Nick = nick then
      if u.Update = ascii "connected" then connectedSince nick (n + 1) rest
      else if u.Update = ascii "disconnected" then connectedSince nick 0 rest
      else connectedSince nick n rest
    else connectedSince nick n rest

/-- What was written to connection `conn`, in order. -/
def writtenTo (t : Transmit) (conn : Nat) : List Str :=
  (t.written.filter fun p => p.1 = conn).map Prod.snd

/-- A listener after the messages `ms` have been appended to its queue. -/
def pushAll (ms : List Msg) (l : clientListener) : clientListener :=
  { l with Messages := { l.Messages with buf := l.Messages.buf ++ ms } }

/-- A listener after its `Messages` channel has been closed. -/
def closedListener (l : clientListener) : clientListener :=
  { l with Messages := { l.Messages with closed := true } }

/-- The registry after `msg` has been appended to the queue of every
listener of topic `k`. -/
def pushTopic (m : Registry) (k : Str) (msg : Msg) : Registry :=
  match m k with
  | none => m
  | some pool => m.set k (pool.map (pushAll [msg]))

/-- The registry after a publish on the channel named by `key`. -/
def pushKey (m : Registry) (key : Option Str) (msg : Msg) : Registry :=
  match key with
  | none => m
  | some k => pushTopic m k msg

/-- Every listener of topic `k` is live (not cancelled), has an open queue
and room for `r` more messages, and the pool is within its capacity. -/
def RoomAt (m : Registry) (k : Str) (r : Nat) : Prop :=
  ∀ pool, m k = some pool →
    pool.length ≤ poolCap ∧
    ∀ l ∈ pool, l.Done = false ∧ l.Messages.closed = false ∧ l.Messages.buf.length + r ≤ l.Messages.cap

/-- Room for `r` more publishes on `cls` and then `all_cls`: a channel that
is both gets each message twice. -/
def PairRoom (m : Registry) (cls all_cls : Option Str) (r : Nat) : Prop :=
  (∀ k, cls = some k → RoomAt m k (if all_cls = some k then 2 * r else r)) ∧
  (∀ k, all_cls = some k → RoomAt m k (if cls = some k then 2 * r else r))

/-- The line `$MyNick <nick>|`. -/
def myNickLine (nick : Str) : Str := ascii "$MyNick " ++ nick ++ ascii "|"

/-- The line `$ADCSND file <name> <start> <size>|`. -/
def adcsndLine (name start sz : Str) : Str :=
  ascii "$ADCSND file " ++ name ++ ascii " " ++ start ++ ascii " " ++ sz ++ ascii "|"

/-- What the peer delivers: the three lines, the payload, and whatever
follows it. -/
def peerInput (nick name start sz payload after : Str) : Str :=
  myNickLine nick ++ ascii "$Lock XYZ|" ++ adcsndLine name start sz ++ payload ++ after

/-- The registry once `$MyNick <nick>` has been handled: the topic `nick`
exists. -/
def withTopic (m : Registry) (nick : Str) : Registry :=
  match m nick with
  | some _ => m
  | none => m.set nick []

/-- The channel `all_cls` of a session started on the registry `m`. -/
def allCls (m : Registry) : Option Str :=
  if (m (ascii "*")).isSome then some (ascii "*") else none

/-- The registry after `msg` has been published to the topic `nick` and
then to `all_cls`. -/
def pushPair (m : Registry) (nick : Str) (all_cls : Option Str) (msg : Msg) : Registry :=
  pushKey (pushKey m (some nick) msg) all_cls msg

/-- The messages a session publishes for the three lines and the payload. -/
def delivered (nick name start sz payload : Str) : List Msg :=
  [Msg.str (myNickLine nick), Msg.str (ascii "$Lock XYZ|"),
   Msg.str (adcsndLine name start sz), Msg.bytes payload]

/-- Every message twice: what a listener gets when `cls` and `all_cls` are
one channel. -/
def twice (ms : List Msg) : List Msg := ms.flatMap fun x => [x, x]

/-- An `$ADCSND file` line whose size field is not an integer, or announces
more bytes than the connection delivers. -/
def badTransfer (msg reader : Str) : Prop :=
  HasPrefix msg (ascii "$ADCSND file") = true ∧
  ∃ f, (Fields msg)[4]? = some f ∧
    (Atoi (f.take (f.length - 1)) = none ∨
     ∃ n : Int, Atoi (f.take (f.length - 1)) = some n ∧ reader.length < n.toNat)

/-- What a session writes to the connection `conn` over the three lines:
its own `$MyNick`, the `$Lock` that answers `$MyNick`, and the three replies
to `$Lock XYZ|`. -/
def sessionReplies (LockToKey : Str → Str) (u : User) (conn : Nat) : List (Nat × Str) :=
  [(conn, ascii "$MyNick " ++ u.Nick ++ ascii "|"),
   (conn, ascii "$Lock EXTENDEDPROTOCOL/wut? Pk=gdc,Ref=10.109.49.49:411|"),
   (conn, ascii "$Supports MiniSlots XmlBZList ADCGet TTHL TTHF|"),
   (conn, ascii "$Direction Download 29000|"),
   (conn, ascii "$Key " ++ LockToKey (ascii "XYZ|") ++ ascii "|")]

/-- Every registered pool is within its capacity, every listener in it has
an open queue, and those that are not cancelled have room for `r` more
messages. -/
def Fits (m : Registry) (r : Nat) : Prop :=
  ∀ k pool, m k = some pool →
    pool.length ≤ poolCap ∧
    ∀ l ∈ pool, l.Messages.closed = false ∧
      (l.Done = false → l.Messages.buf.length + r ≤ l.Messages.cap)

/-- The messages a session writes to the connection in reply to a line: one
for a `$MyNick ` line, three for a `$Lock` line. -/
def repliesTo (LockToKey : Str → Str) (msg : Str) : List Str :=
  (if HasPrefix msg (ascii "$MyNick ") then
    [ascii "$Lock EXTENDEDPROTOCOL/wut? Pk=gdc,Ref=10.109.49.49:411|"] else []) ++
  (if HasPrefix msg (ascii "$Lock") then
    [ascii "$Supports MiniSlots XmlBZList ADCGet TTHL TTHF|",
     ascii "$Direction Download 29000|",
     ascii "$Key " ++ LockToKey ((Fields msg)[1]?.getD []) ++ ascii "|"] else [])

/-- The connection refuses one of the replies to a line: the write of the
`k`-th reply fails, the replies before it having been written after
`written`. -/
def refused (env : PeerEnv) (conn : Nat) (msg : Str) (written : List (Nat × Str)) : Prop :=
  ∃ k, k < (repliesTo env.LockToKey msg).length ∧
    env.net.accepts
      (written ++ ((repliesTo env.LockToKey msg).take k).map fun r => (conn, r)) conn = false

/-- A session at its start, on the registry `m`, with `reader` to read. -/
def startSession (m : Registry) (reader remote : Str) : PeerSession :=
  { reader := reader, otherNick := remote, cls := none, all_cls := allCls m, m := m,
    closed := [], clientUpdates := [], written := [], cycles := 0 }

/-- A registry with one idle listener on `*` and two on `Bob`. -/
def exampleRegistry : Registry := fun k =>
  if k = ascii "*" then some [⟨Chan.make 100, false⟩]
  else if k = ascii "Bob" then some [⟨Chan.make 100, false⟩, ⟨⟨[Msg.str (ascii "$x|")], 100, false⟩, false⟩]
  else none

/-- A registry whose only listener, on `*`, has a full queue. -/
def fullRegistry : Registry := fun k =>
  if k = ascii "*" then some [⟨⟨List.replicate 100 (Msg.str (ascii "$x|")), 100, false⟩, false⟩]
  else none

/-- The registry without topics. -/
def emptyRegistry : Registry := fun _ => none

/-- A registry whose only listener, on `Bob`, is cancelled and has an empty
queue. -/
def cancelledRegistry : Registry := fun k =>
  if k = ascii "Bob" then some [⟨Chan.make 100, true⟩] else none

/-- A registry whose only listener, on `*`, has a queue that is closed. -/
def closedRegistry : Registry := fun k =>
  if k = ascii "*" then some [⟨⟨[], 100, true⟩, false⟩] else none

/-- An environment: the identity for `LockToKey`, a `select` that takes the
`Done` case whenever it can choose, a network on which every write
succeeds, and the allocation bound of 64-bit Linux. -/
def exampleEnv : PeerEnv := ⟨fun x => x, fun _ _ => true, Net.working, 2 ^ 48⟩

/-- The environment `exampleEnv` on a network where a connection takes
`n` writes and refuses the next. -/
def refusingEnv (n : Nat) : PeerEnv :=
  ⟨fun x => x, fun _ _ => true, ⟨fun log _ => decide (log.length < n), fun _ => true⟩, 2 ^ 48⟩

/-! ## Theorems

### Listener pools -/

theorem hubPost_Done (msg : Str) (hl : listener) : (hubPost msg hl).Done = hl.Done := by
  obtain ⟨q, done, re⟩ := hl
  cases done <;> cases re <;> simp only [hubPost] <;> split_ifs <;> rfl

theorem hubLoop_spec (msg : Str) (hls : List listener) :
    ∀ d : HubCycle,
      (∀ hl ∈ hls, hl.Messages.closed = false ∧ hl.Messages.buf.length < hl.Messages.cap) →
      d.hubListeners.length + hls.length ≤ poolCap →
      hubLoop msg hls d =
        .ok ⟨d.hubListeners ++ (hls.filter fun hl => !hl.Done).map (hubPost msg),
             d.seen ++ hls.map (hubPost msg)⟩ := by
  induction hls with
  | nil => intro d _ _; simp [hubLoop]
  | cons hl rest ih =>
    intro d hok hlen
    obtain ⟨hopen, hroom⟩ := hok hl (List.mem_cons_self _ _)
    have hrest : ∀ x ∈ rest, x.Messages.closed = false ∧ x.Messages.buf.length < x.Messages.cap :=
      fun x hx => hok x (List.mem_cons_of_mem _ hx)
    simp only [List.length_cons] at hlen
    have hlt : d.hubListeners.length < poolCap := by omega
    obtain ⟨⟨buf, cap, closed⟩, done, re⟩ := hl
    simp only at hopen hroom
    subst hopen
    cases done with
    | true =>
      have key := ih ⟨d.hubListeners, d.seen ++ [⟨⟨buf, cap, true⟩, true, re⟩]⟩ hrest (by simp; omega)
      simp [hubLoop, Chan.close, key, hubPost]
    | false =>
      have keyPush := ih ⟨d.hubListeners ++ [⟨⟨buf ++ [msg], cap, false⟩, false, re⟩],
        d.seen ++ [⟨⟨buf ++ [msg], cap, false⟩, false, re⟩]⟩ hrest (by simp; omega)
      have keyKeep := ih ⟨d.hubListeners ++ [⟨⟨buf, cap, false⟩, false, re⟩],
        d.seen ++ [⟨⟨buf, cap, false⟩, false, re⟩]⟩ hrest (by simp; omega)
      cases re with
      | none =>
        simp [hubLoop, listener.wants, Chan.canSend, hroom, Chan.send, poolSend, hlt, keyPush,
          hubPost]
      | some r =>
        by_cases hw : r msg = true
        · simp [hubLoop, listener.wants, hw, Chan.canSend, hroom, Chan.send, poolSend, hlt,
            keyPush, hubPost]
        · simp [hubLoop, listener.wants, hw, poolSend, hlt, keyKeep, hubPost]

theorem hubPost_fields (msg : Str) (hl : listener) :
    ((hubPost msg hl).Messages.buf = hl.Messages.buf ++ [msg] ↔
      (hl.Done = false ∧ (hl.Regex = none ∨ ∃ re, hl.Regex = some re ∧ re msg = true))) ∧
    (¬ (hl.Done = false ∧ (hl.Regex = none ∨ ∃ re, hl.Regex = some re ∧ re msg = true)) →
      (hubPost msg hl).Messages.buf = hl.Messages.buf) ∧
    (hubPost msg hl).Messages.cap = hl.Messages.cap ∧
    ((hubPost msg hl).Messages.closed = true ↔ (hl.Messages.closed = true ∨ hl.Done = true)) ∧
    (hubPost msg hl).Regex = hl.Regex := by
  obtain ⟨⟨buf, cap, closed⟩, done, re⟩ := hl
  cases done with
  | true => simp [hubPost]
  | false =>
    cases re with
    | none => simp [hubPost]
    | some r =>
      by_cases hw : r msg = true
      · simp [hubPost, hw]
      · simp [hubPost, hw]

/-- C1. Hub dispatch: for every line and every pool in which no listener's
queue is full (the queues of pooled listeners being open, the pool within
its capacity), the cycle completes and visits every listener once, in
order. The line is appended to a listener's queue exactly when the listener
is not cancelled and its Regex is nil or matches the line; every other
queue content is unchanged; no capacity, no Done signal and no Regex
changes; a queue is closed exactly when its listener is cancelled; and the
pool afterwards holds exactly the non-cancelled listeners, in order. -/
theorem handleHubMessages_delivers_iff_live_and_wanted (msg : Str) (pool : List listener)
    (hcap : pool.length ≤ poolCap)
    (hopen : ∀ hl ∈ pool, hl.Messages.closed = false)
    (hroom : ∀ hl ∈ pool, hl.Messages.buf.length < hl.Messages.cap) :
    ∃ d, handleHubMessages msg pool = .ok d ∧
      d.seen.length = pool.length ∧
      (∀ (i : Nat) (hl : listener), pool[i]? = some hl →
        ∃ hl', d.seen[i]? = some hl' ∧
          (hl'.Messages.buf = hl.Messages.buf ++ [msg] ↔
            (hl.Done = false ∧ (hl.Regex = none ∨ ∃ re, hl.Regex = some re ∧ re msg = true))) ∧
          (¬ (hl.Done = false ∧ (hl.Regex = none ∨ ∃ re, hl.Regex = some re ∧ re msg = true)) →
            hl'.Messages.buf = hl.Messages.buf) ∧
          hl'.Messages.cap = hl.Messages.cap ∧
          (hl'.Messages.closed = true ↔ hl.Done = true) ∧
          hl'.Done = hl.Done ∧
          hl'.Regex = hl.Regex) ∧
      d.hubListeners = d.seen.filter fun hl => !hl.Done := by
  refine ⟨⟨(pool.filter fun hl => !hl.Done).map (hubPost msg), pool.map (hubPost msg)⟩, ?_, ?_, ?_, ?_⟩
  · unfold handleHubMessages
    simpa using hubLoop_spec msg pool ⟨[], []⟩ (fun hl h => ⟨hopen hl h, hroom hl h⟩)
      (by simpa using hcap)
  · simp
  · intro i hl hi
    have hmem : hl ∈ pool := List.getElem?_mem hi
    obtain ⟨h1, h2, h3, h4, h5⟩ := hubPost_fields msg hl
    refine ⟨hubPost msg hl, by simp [hi], h1, h2, h3, ?_, hubPost_Done msg hl, h5⟩
    rw [h4]
    simp [hopen hl hmem]
  · simp only [List.filter_map]
    congr 1
    apply List.filter_congr
    intro x _
    simp [hubPost_Done]

/-- C1, at the line `$Hello a|` and a pool of four listeners with empty
queues: a cancelled one, one whose Regex rejects the line, one without
Regex and one whose Regex matches. The first is closed and dropped, the
second is kept as it is, the other two get the line. -/
theorem handleHubMessages_delivers_iff_live_and_wanted_witness :
    ∃ d, handleHubMessages (ascii "$Hello a|")
        [⟨⟨[], 1000, false⟩, true, none⟩,
         ⟨⟨[], 1000, false⟩, false, some fun s => HasPrefix s (ascii "$Lock")⟩,
         ⟨⟨[], 1000, false⟩, false, none⟩,
         ⟨⟨[], 1000, false⟩, false, some fun s => HasPrefix s (ascii "$Hello")⟩] = .ok d ∧
      d.seen.map (fun hl => (hl.Messages, hl.Done)) =
        [(⟨[], 1000, true⟩, true), (⟨[], 1000, false⟩, false),
         (⟨[ascii "$Hello a|"], 1000, false⟩, false),
         (⟨[ascii "$Hello a|"], 1000, false⟩, false)] ∧
      d.hubListeners.map (fun hl => (hl.Messages, hl.Done)) =
        [(⟨[], 1000, false⟩, false), (⟨[ascii "$Hello a|"], 1000, false⟩, false),
         (⟨[ascii "$Hello a|"], 1000, false⟩, false)] ∧
      d.hubListeners.map (fun hl => hl.Regex.map fun re => re (ascii "$Lock x|")) =
        [some true, none, some false] :=
  have h := handleHubMessages_delivers_iff_live_and_wanted (ascii "$Hello a|")
    [⟨⟨[], 1000, false⟩, true, none⟩,
     ⟨⟨[], 1000, false⟩, false, some fun s => HasPrefix s (ascii "$Lock")⟩,
     ⟨⟨[], 1000, false⟩, false, none⟩,
     ⟨⟨[], 1000, false⟩, false, some fun s => HasPrefix s (ascii "$Hello")⟩]
    (by decide) (by decide) (by decide)
  h.elim fun d hd => ⟨d, hd.1, by
    have e := Except.ok.inj (hd.1.symm.trans rfl)
    subst e
    exact ⟨rfl, rfl, rfl⟩⟩

/-- The hypotheses of the hub dispatch are kept by it: after a cycle the
pooled listeners still have open queues and fit the pool. -/
theorem handleHubMessages_keeps_pool_open (msg : Str) (pool : List listener)
    (hcap : pool.length ≤ poolCap)
    (hopen : ∀ hl ∈ pool, hl.Messages.closed = false)
    (hroom : ∀ hl ∈ pool, hl.Messages.buf.length < hl.Messages.cap) :
    ∃ d, handleHubMessages msg pool = .ok d ∧ d.hubListeners.length ≤ poolCap ∧
      ∀ hl ∈ d.hubListeners, hl.Messages.closed = false := by
  refine ⟨⟨(pool.filter fun hl => !hl.Done).map (hubPost msg), pool.map (hubPost msg)⟩, ?_, ?_, ?_⟩
  · unfold handleHubMessages
    simpa using hubLoop_spec msg pool ⟨[], []⟩ (fun hl h => ⟨hopen hl h, hroom hl h⟩)
      (by simpa using hcap)
  · simp only [List.length_map]
    exact le_trans (List.length_filter_le _ _) hcap
  · intro hl hmem
    simp only [List.mem_map, List.mem_filter] at hmem
    obtain ⟨l0, ⟨hl0, hd⟩, rfl⟩ := hmem
    have hd0 : l0.Done = false := by simpa using hd
    have h4 := (hubPost_fields msg l0).2.2.2.1
    cases hc : (hubPost msg l0).Messages.closed with
    | false => rfl
    | true =>
      rcases h4.mp hc with h | h
      · rw [hopen l0 hl0] at h; cases h
      · rw [hd0] at h; cases h

/-- A listener that subscribes arrives with an open, empty queue. -/
theorem HubMessagesMatch_adds_open (pool : List listener) (done : Bool)
    (re : Option (Str → Bool)) (h : pool.length < poolCap)
    (hopen : ∀ hl ∈ pool, hl.Messages.closed = false) :
    ∀ hl ∈ (HubMessagesMatch pool done re).1, hl.Messages.closed = false := by
  intro hl hmem
  simp only [HubMessagesMatch, poolTrySend, h, if_true, List.mem_append, List.mem_singleton] at hmem
  rcases hmem with hm | hm
  · exact hopen hl hm
  · subst hm; rfl

/-- C2. A listener whose Done is closed and whose queue has room: when the
select takes the send case, the message is delivered, the queue stays open
and the listener is put back into the pool. -/
theorem publishToListeners_cancelled_with_room_can_receive :
    publishToListeners (fun _ => false) (Msg.str (ascii "x|")) [⟨⟨[], 100, false⟩, true⟩] =
      .ok ⟨[⟨⟨[Msg.str (ascii "x|")], 100, false⟩, true⟩],
           [⟨⟨[Msg.str (ascii "x|")], 100, false⟩, true⟩]⟩ := by
  rfl

/-- C3. Subscribing to a full pool (1000 listeners) panics and leaves the
pool, and the whole registry, as it was; subscribing to a pool with fewer
than 1000 listeners succeeds and appends the new listener, a topic without
pool getting the one-listener pool; no other topic is touched. -/
theorem subscribe_full_panics_else_appends (pool : List listener) (done : Bool)
    (re : Option (Str → Bool)) (m : Registry) (nick : Str) (cpool : List clientListener) :
    (pool.length = poolCap →
      HubMessagesMatch pool done re = (pool, .error .panic)) ∧
    (pool.length < poolCap →
      HubMessagesMatch pool done re =
        (pool ++ [⟨Chan.make 1000, done, re⟩], .ok (Chan.make 1000))) ∧
    (m nick = some cpool → cpool.length = poolCap →
      ClientMessages m nick done = (m, .error .panic)) ∧
    (m nick = some cpool → cpool.length < poolCap →
      (ClientMessages m nick done).2 = .ok (Chan.make 100) ∧
      (ClientMessages m nick done).1 nick = some (cpool ++ [⟨Chan.make 100, done⟩]) ∧
      ∀ k, k ≠ nick → (ClientMessages m nick done).1 k = m k) ∧
    (m nick = none →
      (ClientMessages m nick done).2 = .ok (Chan.make 100) ∧
      (ClientMessages m nick done).1 nick = some [⟨Chan.make 100, done⟩] ∧
      ∀ k, k ≠ nick → (ClientMessages m nick done).1 k = m k) := by
  refine ⟨?_, ?_, ?_, ?_, ?_⟩
  · intro h
    simp [HubMessagesMatch, poolTrySend, h]
  · intro h
    simp [HubMessagesMatch, poolTrySend, h]
  · intro hm h
    simp [ClientMessages, poolTrySend, hm, h]
  · intro hm h
    simp [ClientMessages, poolTrySend, hm, h, Registry.set]
    intro k hk
    simp [hk]
  · intro hm
    simp [ClientMessages, poolTrySend, hm, Registry.set, poolCap]
    intro k hk
    simp [hk]

/-- C8. The UDP loop publishes the whole 2048-byte buffer: a datagram of
fewer than 2048 bytes is published followed by zero bytes up to 2048, which
is not the datagram. -/
theorem udpMessage_is_padded_buffer (datagram : Str) (h : datagram.length < 2048) :
    udpMessage datagram = Msg.str (datagram ++ List.replicate (2048 - datagram.length) 0) ∧
    udpMessage datagram ≠ Msg.str datagram := by
  have hmin : min datagram.length (List.replicate 2048 (0 : Nat)).length = datagram.length := by
    rw [List.length_replicate]; omega
  have e : udpMessage datagram =
      Msg.str (datagram ++ List.replicate (2048 - datagram.length) 0) := by
    simp only [udpMessage, ReadFromUDP, hmin, List.take_length, List.drop_replicate]
  refine ⟨e, ?_⟩
  rw [e]
  intro hc
  have hl : (datagram ++ List.replicate (2048 - datagram.length) 0).length = datagram.length :=
    congrArg List.length (Msg.str.inj hc)
  rw [List.length_append, List.length_replicate] at hl
  omega

/-- C8, at the two-byte datagram `hi`. -/
theorem udpMessage_is_padded_buffer_witness :
    udpMessage (ascii "hi") = Msg.str (ascii "hi" ++ List.replicate 2046 0) ∧
    udpMessage (ascii "hi") ≠ Msg.str (ascii "hi") :=
  udpMessage_is_padded_buffer (ascii "hi") (by decide)

/-- C3, at a pool of 1000 listeners and at the empty pool. -/
theorem subscribe_full_panics_else_appends_witness :
    HubMessagesMatch (List.replicate 1000 ⟨Chan.make 1000, false, none⟩) false none =
      (List.replicate 1000 ⟨Chan.make 1000, false, none⟩, .error .panic) ∧
    HubMessagesMatch [] false none = ([⟨Chan.make 1000, false, none⟩], .ok (Chan.make 1000)) :=
  ⟨(subscribe_full_panics_else_appends (List.replicate 1000 ⟨Chan.make 1000, false, none⟩)
      false none (fun _ => none) [] []).1 (List.length_replicate _ _),
   (subscribe_full_panics_else_appends [] false none (fun _ => none) [] []).2.1 (by decide)⟩

/-! ### Runes of a string -/

theorem decode_size_pos (s0 : Nat) (t : Str) : 1 ≤ (DecodeRuneInString (s0 :: t)).2 := by
  simp only [DecodeRuneInString]
  repeat' split
  all_goals simp

theorem decode_size_le (s : Str) : (DecodeRuneInString s).2 ≤ s.length := by
  unfold DecodeRuneInString
  repeat' split
  all_goals simp

theorem decode_ascii (b : Nat) (t : Str) (h : b < 0x80) : DecodeRuneInString (b :: t) = (b, 1) := by
  simp [DecodeRuneInString, h]

theorem decode_append_ascii (s0 : Nat) (t : Str) (b : Nat) (rest : Str) (h : b < 0x80) :
    DecodeRuneInString ((s0 :: t) ++ b :: rest) = DecodeRuneInString (s0 :: t) := by
  have hlo : ∀ x, b < acceptLo x := by
    intro x; unfold acceptLo; split_ifs <;> omega
  rcases t with _ | ⟨s1, _ | ⟨s2, _ | ⟨s3, t3⟩⟩⟩
  · simp only [DecodeRuneInString, List.nil_append, List.cons_append]
    split_ifs <;> simp_all
  · simp only [DecodeRuneInString, List.nil_append, List.cons_append]
    split_ifs <;> simp_all
  · simp only [DecodeRuneInString, List.nil_append, List.cons_append]
    split_ifs <;> simp_all
  · simp only [DecodeRuneInString, List.nil_append, List.cons_append]

theorem runesGo_fuel (n : Nat) : ∀ (s : Str), s.length ≤ n → ∀ fuel, s.length ≤ fuel →
    runesGo fuel s = runesGo s.length s := by
  induction n with
  | zero =>
    intro s hs fuel _
    have : s = [] := List.length_eq_zero.mp (Nat.le_zero.mp hs)
    subst this
    cases fuel <;> simp [runesGo]
  | succ n ih =>
    intro s hs fuel hf
    cases s with
    | nil => cases fuel <;> simp [runesGo]
    | cons s0 t =>
      cases fuel with
      | zero => simp at hf
      | succ f =>
        have hk := decode_size_pos s0 t
        have hd : ((s0 :: t).drop (DecodeRuneInString (s0 :: t)).2).length ≤ t.length := by
          simp only [List.length_drop, List.length_cons]; omega
        simp only [List.length_cons] at hs hf
        simp only [runesGo, List.length_cons]
        rw [ih _ (by omega) f (by omega), ih _ (by omega) t.length hd]

theorem runes_nil : runes [] = [] := rfl

theorem runes_cons (s0 : Nat) (t : Str) :
    runes (s0 :: t) =
      ((DecodeRuneInString (s0 :: t)).1, (s0 :: t).take (DecodeRuneInString (s0 :: t)).2) ::
        runes ((s0 :: t).drop (DecodeRuneInString (s0 :: t)).2) := by
  have hk := decode_size_pos s0 t
  have hd : ((s0 :: t).drop (DecodeRuneInString (s0 :: t)).2).length ≤ t.length := by
    simp only [List.length_drop, List.length_cons]; omega
  simp only [runes, List.length_cons, runesGo]
  rw [runesGo_fuel _ _ (le_refl _) t.length hd]

theorem runes_ascii_cons (b : Nat) (t : Str) (h : b < 0x80) :
    runes (b :: t) = (b, [b]) :: runes t := by
  rw [runes_cons, decode_ascii b t h]; simp

theorem runes_append_ascii (n : Nat) : ∀ (w : Str), w.length ≤ n → ∀ (b : Nat) (rest : Str),
    b < 0x80 → runes (w ++ b :: rest) = runes w ++ (b, [b]) :: runes rest := by
  induction n with
  | zero =>
    intro w hw b rest hb
    have : w = [] := List.length_eq_zero.mp (Nat.le_zero.mp hw)
    subst this
    simpa [runes_nil] using runes_ascii_cons b rest hb
  | succ n ih =>
    intro w hw b rest hb
    cases w with
    | nil => simpa [runes_nil] using runes_ascii_cons b rest hb
    | cons s0 t =>
      have hk := decode_size_pos s0 t
      have hle := decode_size_le (s0 :: t)
      have hD := decode_append_ascii s0 t b rest hb
      rw [List.cons_append] at hD ⊢
      rw [runes_cons s0 (t ++ b :: rest), runes_cons s0 t, hD]
      rw [← List.cons_append, List.take_append_of_le_length hle, List.drop_append_of_le_length hle]
      rw [ih _ (by simp only [List.length_drop, List.length_cons] at hw ⊢; omega) b rest hb]
      simp

/-- The bytes of the runes of a string are the string. -/
theorem runes_bytes (n : Nat) : ∀ (s : Str), s.length ≤ n →
    ((runes s).map Prod.snd).flatten = s := by
  induction n with
  | zero =>
    intro s hs
    have : s = [] := List.length_eq_zero.mp (Nat.le_zero.mp hs)
    subst this; rfl
  | succ n ih =>
    intro s hs
    cases s with
    | nil => rfl
    | cons s0 t =>
      have hk := decode_size_pos s0 t
      rw [runes_cons, List.map_cons, List.flatten_cons,
        ih _ (by simp only [List.length_drop, List.length_cons] at hs ⊢; omega)]
      exact List.take_append_drop _ _

/-! ### Fields of a line, literal text of a format -/

theorem fieldsOf_nonspace_append (A : List (Nat × Str)) :
    ∀ (B : List (Nat × Str)) (cur : Str) (inField : Bool),
      (∀ p ∈ A, IsSpace p.1 = false) →
      fieldsOf (A ++ B) cur inField =
        fieldsOf B (cur ++ (A.map Prod.snd).flatten) (inField || !A.isEmpty) := by
  induction A with
  | nil => intro B cur inField _; simp
  | cons p A ih =>
    intro B cur inField h
    obtain ⟨r, bs⟩ := p
    have hr : IsSpace r = false := h (r, bs) (List.mem_cons_self _ _)
    have key := ih B (cur ++ bs) true (fun q hq => h q (List.mem_cons_of_mem _ hq))
    simp [fieldsOf, hr, key]

theorem fieldsOf_ne_nil_of_last (X : List (Nat × Str)) (r : Nat) (bs : Str)
    (hr : IsSpace r = false) :
    ∀ (cur : Str) (inField : Bool), fieldsOf (X ++ [(r, bs)]) cur inField ≠ [] := by
  induction X with
  | nil => intro cur inField; simp [fieldsOf, hr]
  | cons p X ih =>
    intro cur inField
    obtain ⟨q, cs⟩ := p
    by_cases hq : IsSpace q = true
    · simp [fieldsOf, hq, ih]
    · simp [fieldsOf, hq, ih]

theorem runes_eq_nil {w : Str} (h : runes w = []) : w = [] := by
  cases w with
  | nil => rfl
  | cons s0 t => rw [runes_cons] at h; simp at h

theorem Fields_word_space (w : Str) (sp : Nat) (rest : Str) (hw : noSpace w = true)
    (hne : w ≠ []) (hsp : sp < 0x80) (hs : IsSpace sp = true) :
    Fields (w ++ sp :: rest) = w :: Fields rest := by
  have hA : ∀ p ∈ runes w, IsSpace p.1 = false := by
    simpa [noSpace] using hw
  have hr : (runes w).isEmpty = false := by
    cases h : runes w with
    | nil => exact absurd (runes_eq_nil h) hne
    | cons _ _ => rfl
  unfold Fields
  rw [runes_append_ascii _ w (le_refl _) sp rest hsp, fieldsOf_nonspace_append _ _ _ _ hA,
    runes_bytes _ w (le_refl _)]
  simp [fieldsOf, hs, hr]

theorem Fields_word (w : Str) (hw : noSpace w = true) (hne : w ≠ []) : Fields w = [w] := by
  have hA : ∀ p ∈ runes w, IsSpace p.1 = false := by
    simpa [noSpace] using hw
  have hr : (runes w).isEmpty = false := by
    cases h : runes w with
    | nil => exact absurd (runes_eq_nil h) hne
    | cons _ _ => rfl
  unfold Fields
  have := fieldsOf_nonspace_append (runes w) [] [] false hA
  rw [List.append_nil] at this
  rw [this, runes_bytes _ w (le_refl _)]
  simp [fieldsOf, hr]

theorem noSpace_append_ascii (w : Str) (b : Nat) (hw : noSpace w = true) (hb : b < 0x80)
    (hs : IsSpace b = false) : noSpace (w ++ [b]) = true := by
  unfold noSpace at hw ⊢
  rw [runes_append_ascii _ w (le_refl _) b [] hb]
  simp [List.all_append, hw, hs, runes_nil]

theorem Fields_ne_nil_of_last (r : Str) (b : Nat) (hb : b < 0x80) (hs : IsSpace b = false) :
    Fields (r ++ [b]) ≠ [] := by
  unfold Fields
  rw [runes_append_ascii _ r (le_refl _) b [] hb, runes_nil]
  exact fieldsOf_ne_nil_of_last _ _ _ hs _ _

theorem sprintf0Go_literal (pre : Str) : ∀ (rest : Str) (fuel : Nat),
    (∀ c ∈ pre, c ≠ 0x25) →
    sprintf0Go (pre.length + fuel) (pre ++ rest) = pre ++ sprintf0Go fuel rest := by
  induction pre with
  | nil => intro rest fuel _; simp
  | cons c pre ih =>
    intro rest fuel h
    have hc : c ≠ 0x25 := h c (List.mem_cons_self _ _)
    have e : (c :: pre).length + fuel = (pre.length + fuel) + 1 := by
      simp only [List.length_cons]; omega
    rw [e, List.cons_append]
    simp only [sprintf0Go, hc, if_false]
    rw [ih rest fuel (fun d hd => h d (List.mem_cons_of_mem _ hd))]
    rfl

theorem sprintf0_literal (pre rest : Str) (h : ∀ c ∈ pre, c ≠ 0x25) :
    sprintf0 (pre ++ rest) = pre ++ sprintf0 rest := by
  unfold sprintf0
  rw [List.length_append]
  exact sprintf0Go_literal pre rest rest.length h

/-! ### The hub session -/

theorem Sprintf_key (key : Str) :
    Sprintf (ascii "$Key %s|") [Arg.str key] = some (ascii "$Key " ++ key ++ ascii "|") := rfl

theorem Sprintf_validateNick (nick : Str) :
    Sprintf (ascii "$ValidateNick %s|") [Arg.str nick] =
      some (ascii "$ValidateNick " ++ nick ++ ascii "|") := rfl

theorem Sprintf_version : Sprintf (ascii "$Version 1,0091|") [] = some (ascii "$Version 1,0091|") := by
  decide

theorem Sprintf_myInfo (nick : Str) (n : Nat) :
    Sprintf myInfoFormat [Arg.str nick, Arg.uint n] =
      some (ascii "$MyINFO $ALL " ++ (nick ++ ascii " <gdc V:0.0.0,M:A,H:1/0/0,S:3>$ $10^Q$$" ++
        decimal n ++ ascii "$|")) := by
  simp [Sprintf, sprintfArgs, myInfoFormat, ascii]

theorem hasPrefix_split {s pre : Str} (h : HasPrefix s pre = true) : ∃ rest, s = pre ++ rest := by
  unfold HasPrefix at h
  obtain ⟨t, ht⟩ := List.isPrefixOf_iff_prefix.mp h
  exact ⟨t, ht.symm⟩

theorem Fields_lock_second (ms : Str) (hp : HasPrefix ms (ascii "$Lock ") = true)
    (hbar : ms.getLast? = some 0x7C) : ∃ lock, (Fields ms)[1]? = some lock := by
  obtain ⟨rest, rfl⟩ := hasPrefix_split hp
  have e : ascii "$Lock " ++ rest = ascii "$Lock" ++ 0x20 :: rest := by
    show ([36, 76, 111, 99, 107, 32] : Str) ++ rest = [36, 76, 111, 99, 107] ++ 32 :: rest
    simp
  have hrest : ∃ r, rest = r ++ [0x7C] := by
    rcases List.eq_nil_or_concat rest with h | ⟨r, b, h⟩
    · subst h
      exact absurd hbar (by decide)
    · subst h
      refine ⟨r, ?_⟩
      simp [List.getLast?_append] at hbar
      simp [hbar]
  obtain ⟨r, rfl⟩ := hrest
  rw [e, Fields_word_space (ascii "$Lock") 0x20 _ (by decide) (by decide) (by decide) (by decide)]
  have hne := Fields_ne_nil_of_last r 0x7C (by decide) (by decide)
  cases hF : Fields (r ++ [0x7C]) with
  | nil => exact absurd hF hne
  | cons a t => exact ⟨a, by simp⟩

theorem lock_not_hello (ms : Str) (hp : HasPrefix ms (ascii "$Lock ") = true) :
    HasPrefix ms (ascii "$Hello ") = false := by
  obtain ⟨rest, rfl⟩ := hasPrefix_split hp
  show HasPrefix (([36, 76, 111, 99, 107, 32] : Str) ++ rest) [36, 72, 101, 108, 108, 111, 32] = false
  simp [HasPrefix, List.isPrefixOf]

theorem connectLine_lock (LockToKey : Str → Str) (u : User) (ms : Str) (outbox : List outboxMsg)
    (hp : HasPrefix ms (ascii "$Lock ") = true) (lock : Str) (hl : (Fields ms)[1]? = some lock) :
    connectLine LockToKey u ms outbox =
      .ok (outbox ++
        [⟨[], ascii "$Key " ++ LockToKey lock ++ ascii "|"⟩,
         ⟨[], ascii "$ValidateNick " ++ u.Nick ++ ascii "|"⟩,
         ⟨[], ascii "$Version 1,0091|"⟩,
         ⟨[], ascii "$MyINFO $ALL " ++
            sprintf0 (u.Nick ++ ascii " <gdc V:0.0.0,M:A,H:1/0/0,S:3>$ $10^Q$$" ++
              decimal u.ShareSize ++ ascii "$|")⟩], false) := by
  have h4 : sprintf0 (ascii "$MyINFO $ALL " ++ (u.Nick ++ ascii " <gdc V:0.0.0,M:A,H:1/0/0,S:3>$ $10^Q$$" ++
        decimal u.ShareSize ++ ascii "$|")) = ascii "$MyINFO $ALL " ++
            sprintf0 (u.Nick ++ ascii " <gdc V:0.0.0,M:A,H:1/0/0,S:3>$ $10^Q$$" ++
              decimal u.ShareSize ++ ascii "$|") :=
    sprintf0_literal _ _ (by decide)
  simp only [connectLine, hp, hl, if_true, MessageHub, Sprintf_key, Sprintf_validateNick,
    Sprintf_version, Sprintf_myInfo, lock_not_hello ms hp]
  simp only [List.append_assoc] at h4
  simp only [Sprintf, List.append_assoc, h4]
  rfl

/-- C4, as the claim states it: on the line `$Lock ABCD|`, whose lock token
is `ABCD`, the second field of the line is `ABCD|`, and with the identity
for LockToKey the message enqueued is `$Key ABCD||`, not `$Key ABCD|`. -/
theorem connectLine_lock_at_line_end_keeps_terminator :
    (Fields (ascii "$Lock ABCD|"))[1]? = some (ascii "ABCD|") ∧
    connectLine (fun s => s) ⟨ascii "me", 5⟩ (ascii "$Lock ABCD|") [] =
      .ok ([⟨[], ascii "$Key ABCD||"⟩, ⟨[], ascii "$ValidateNick me|"⟩,
            ⟨[], ascii "$Version 1,0091|"⟩,
            ⟨[], ascii "$MyINFO $ALL me <gdc V:0.0.0,M:A,H:1/0/0,S:3>$ $10^Q$$5$|"⟩], false) ∧
    (ascii "$Key ABCD||" : Str) ≠ ascii "$Key " ++ (fun s => s) (ascii "ABCD") ++ ascii "|" :=
  ⟨by decide, rfl, by decide⟩

/-- C4, amended. For a hub line (it ends with the terminator) that begins
with `$Lock `, the loop of Connect enqueues for the hub (destination "")
exactly four messages, in this order: `$Key`, `$ValidateNick`, `$Version`,
`$MyINFO`; the `$Key` payload is LockToKey applied to the second
whitespace-separated field of the line, which is the lock token when a
space follows the token and the lock token with the terminator attached
when the token ends the line. For a line that does not begin with `$Lock `
nothing is enqueued. -/
theorem connectLine_lock_sends_key_of_second_field (LockToKey : Str → Str) (u : User)
    (ms : Str) (outbox : List outboxMsg) (hbar : ms.getLast? = some 0x7C) :
    (HasPrefix ms (ascii "$Lock ") = true →
      ∃ lock, (Fields ms)[1]? = some lock ∧
        (∀ tok more, noSpace tok = true → tok ≠ [] →
          ms = ascii "$Lock " ++ tok ++ 0x20 :: more → lock = tok) ∧
        (∀ tok, noSpace tok = true →
          ms = ascii "$Lock " ++ tok ++ ascii "|" → lock = tok ++ ascii "|") ∧
        connectLine LockToKey u ms outbox =
          .ok (outbox ++
            [⟨[], ascii "$Key " ++ LockToKey lock ++ ascii "|"⟩,
             ⟨[], ascii "$ValidateNick " ++ u.Nick ++ ascii "|"⟩,
             ⟨[], ascii "$Version 1,0091|"⟩,
             ⟨[], ascii "$MyINFO $ALL " ++
                sprintf0 (u.Nick ++ ascii " <gdc V:0.0.0,M:A,H:1/0/0,S:3>$ $10^Q$$" ++
                  decimal u.ShareSize ++ ascii "$|")⟩], false)) ∧
    (HasPrefix ms (ascii "$Lock ") = false →
      connectLine LockToKey u ms outbox = .ok (outbox, HasPrefix ms (ascii "$Hello "))) := by
  constructor
  · intro hp
    obtain ⟨lock, hl⟩ := Fields_lock_second ms hp hbar
    refine ⟨lock, hl, ?_, ?_, connectLine_lock LockToKey u ms outbox hp lock hl⟩
    · intro tok more htok hne hms
      have e : ms = ascii "$Lock" ++ 0x20 :: (tok ++ 0x20 :: more) := by
        rw [hms]
        show ([36, 76, 111, 99, 107, 32] : Str) ++ tok ++ 32 :: more =
          [36, 76, 111, 99, 107] ++ 32 :: (tok ++ 32 :: more)
        simp
      rw [e, Fields_word_space (ascii "$Lock") 0x20 _ (by decide) (by decide) (by decide) (by decide),
        Fields_word_space tok 0x20 more htok hne (by decide) (by decide)] at hl
      simpa using hl.symm
    · intro tok htok hms
      have e : ms = ascii "$Lock" ++ 0x20 :: (tok ++ [0x7C]) := by
        rw [hms]
        show ([36, 76, 111, 99, 107, 32] : Str) ++ tok ++ [124] =
          [36, 76, 111, 99, 107] ++ 32 :: (tok ++ [124])
        simp
      rw [e, Fields_word_space (ascii "$Lock") 0x20 _ (by decide) (by decide) (by decide) (by decide),
        Fields_word (tok ++ [0x7C]) (noSpace_append_ascii tok 0x7C htok (by decide) (by decide))
          (by simp)] at hl
      simpa using hl.symm
  · intro hp
    simp [connectLine, hp]

/-- C4, amended, at the line `$Lock ABCD Pk=x|`. -/
theorem connectLine_lock_sends_key_of_second_field_witness :
    (ascii "$Lock ABCD Pk=x|").getLast? = some 0x7C ∧
    connectLine (fun s => s) ⟨ascii "me", 5⟩ (ascii "$Lock ABCD Pk=x|") [] =
      .ok ([⟨[], ascii "$Key ABCD|"⟩, ⟨[], ascii "$ValidateNick me|"⟩,
            ⟨[], ascii "$Version 1,0091|"⟩,
            ⟨[], ascii "$MyINFO $ALL me <gdc V:0.0.0,M:A,H:1/0/0,S:3>$ $10^Q$$5$|"⟩], false) :=
  have h := (connectLine_lock_sends_key_of_second_field (fun s => s) ⟨ascii "me", 5⟩
    (ascii "$Lock ABCD Pk=x|") [] (by decide)).1 (by decide)
  ⟨by decide, h.elim fun lock hl =>
    (hl.2.2.2.trans (by
      have e := hl.2.1 (ascii "ABCD") (ascii "Pk=x|") (by decide) (by decide) rfl
      subst e
      rfl))⟩

theorem hello_not_lock (ms : Str) (hp : HasPrefix ms (ascii "$Hello ") = true) :
    HasPrefix ms (ascii "$Lock ") = false := by
  cases h : HasPrefix ms (ascii "$Lock ") with
  | false => rfl
  | true => rw [lock_not_hello ms h] at hp; exact absurd hp (by decide)

theorem connectLine_pre (LockToKey : Str → Str) (u : User) (ms : Str) (outbox : List outboxMsg)
    (hbar : ms.getLast? = some 0x7C) (hh : HasPrefix ms (ascii "$Hello ") = false) :
    connectLine LockToKey u ms outbox =
      .ok (outbox ++ (if HasPrefix ms (ascii "$Lock ") then lockReplies LockToKey u ms else []),
        false) := by
  cases hp : HasPrefix ms (ascii "$Lock ") with
  | false => simp [connectLine, hp, hh]
  | true =>
    obtain ⟨lock, hl⟩ := Fields_lock_second ms hp hbar
    rw [connectLine_lock LockToKey u ms outbox hp lock hl]
    simp [lockReplies, hl]

theorem connectLoop_until_hello (LockToKey : Str → Str) (u : User) (h : Str) (post : List Str)
    (hh : HasPrefix h (ascii "$Hello ") = true) (pre : List Str) :
    ∀ r : ConnectRun,
      (∀ l ∈ pre, l.getLast? = some 0x7C ∧ HasPrefix l (ascii "$Hello ") = false) →
      connectLoop LockToKey u (pre ++ h :: post) r =
        .ok ⟨r.outbox ++ (pre.filter fun l => HasPrefix l (ascii "$Lock ")).flatMap
              (lockReplies LockToKey u),
            r.taken + pre.length + 1, true⟩ := by
  induction pre with
  | nil =>
    intro r _
    simp [connectLoop, connectLine, hello_not_lock h hh, hh]
  | cons l pre ih =>
    intro r hpre
    obtain ⟨hbar, hl⟩ := hpre l (List.mem_cons_self _ _)
    have key := ih ⟨r.outbox ++ (if HasPrefix l (ascii "$Lock ") then lockReplies LockToKey u l else []),
      r.taken + 1, false⟩ (fun x hx => hpre x (List.mem_cons_of_mem _ hx))
    have cl := connectLine_pre LockToKey u l r.outbox hbar hl
    cases hp : HasPrefix l (ascii "$Lock ") with
    | false =>
      simp [hp] at cl key
      simp [connectLoop, cl, key, hp]
      omega
    | true =>
      simp [hp] at cl key
      simp [connectLoop, cl, key, hp]
      omega

/-- C5, as the claim states it: on the lines `$Lock ABCD|`, `$Hello|` the
loop of Connect takes both lines, sends the four messages, and has not
returned: it waits for a further line. -/
theorem Connect_lock_hello_bare_does_not_return :
    ∃ r, Connect (fun s => s) ⟨ascii "me", 5⟩ [] [ascii "$Lock ABCD|", ascii "$Hello|"] = .ok r ∧
      r.returned = false ∧ r.taken = 2 ∧ r.outbox.length = 4 :=
  ⟨_, rfl, rfl, rfl, rfl⟩

/-- C5, amended. For every sequence of hub lines, Connect stops reading and
returns at the first line that begins with `$Hello ` (the command followed
by a space); before that it has sent, for each line beginning with `$Lock `,
the four messages `$Key`, `$ValidateNick`, `$Version`, `$MyINFO`, and nothing
else. -/
theorem Connect_returns_at_first_hello_with_space (LockToKey : Str → Str) (u : User)
    (outbox : List outboxMsg) (pre : List Str) (h : Str) (post : List Str)
    (hpre : ∀ l ∈ pre, l.getLast? = some 0x7C ∧ HasPrefix l (ascii "$Hello ") = false)
    (hh : HasPrefix h (ascii "$Hello ") = true) :
    Connect LockToKey u outbox (pre ++ h :: post) =
      .ok ⟨outbox ++ (pre.filter fun l => HasPrefix l (ascii "$Lock ")).flatMap
            (lockReplies LockToKey u),
          pre.length + 1, true⟩ := by
  unfold Connect
  rw [connectLoop_until_hello LockToKey u h post hh pre _ hpre]
  simp

/-- C5, amended, on the lines `$Lock ABCD|`, `$Hello me|`: Connect returns
after the second line, having sent exactly one `$Key`, one `$ValidateNick`,
one `$Version` and one `$MyINFO`. -/
theorem Connect_returns_at_first_hello_with_space_witness :
    Connect (fun s => s) ⟨ascii "me", 5⟩ [] [ascii "$Lock ABCD|", ascii "$Hello me|", ascii "$x|"] =
      .ok ⟨[⟨[], ascii "$Key ABCD||"⟩, ⟨[], ascii "$ValidateNick me|"⟩,
            ⟨[], ascii "$Version 1,0091|"⟩,
            ⟨[], ascii "$MyINFO $ALL me <gdc V:0.0.0,M:A,H:1/0/0,S:3>$ $10^Q$$5$|"⟩], 2, true⟩ :=
  Connect_returns_at_first_hello_with_space (fun s => s) ⟨ascii "me", 5⟩ []
    [ascii "$Lock ABCD|"] (ascii "$Hello me|") [ascii "$x|"] (by decide) (by decide)

/-! ### The outbound router -/

theorem transmitStep_serializers (net : Net) (pick : Nat → Nat) (t t1 : Transmit)
    (e : TransmitInput) (nick : Str) (n : Nat) (hn : serializers t nick = n)
    (h : transmitStep net pick t e = .ok t1)
    (rest : List TransmitInput) :
    connectedSince nick (serializers t1 nick) rest = connectedSince nick n (e :: rest) := by
  subst hn
  cases e with
  | outbox m =>
    have hs : serializers t1 nick = serializers t nick := by
      unfold transmitStep at h
      by_cases hto : m.To = []
      · simp only [hto, if_true] at h
        split at h
        · cases h; rfl
        · cases h
      · simp only [hto, if_false] at h
        cases hq : t.clientMsgs m.To with
        | none =>
          simp only [hq, Option.getD] at h
          split at h
          · cases h
            unfold serializers Transmit.setQueue
            by_cases hk : nick = m.To
            · subst hk; simp [hq]
            · simp [hk]
          · cases h
        | some q =>
          simp only [hq, Option.getD] at h
          cases hw : q.writers with
          | nil =>
            simp only [hw] at h
            split at h
            · cases h
              unfold serializers Transmit.setQueue
              by_cases hk : nick = m.To
              · subst hk; simp [hq, hw]
              · simp [hk]
            · cases h
          | cons w ws =>
            simp only [hw] at h
            split at h
            · cases h
            · cases h
              unfold serializers Transmit.setQueue
              by_cases hk : nick = m.To
              · subst hk; simp [hq]
              · simp [hk]
    simp [connectedSince, hs]
  | clientUpdates u =>
    unfold transmitStep at h
    by_cases hc : u.Update = ascii "connected"
    · simp only [hc, if_true] at h
      split at h
      · cases h
      · cases h
        by_cases hk : u.Nick = nick
        · subst hk
          have : serializers
              { t with clientMsgs := t.setQueue u.Nick ⟨[], ((t.clientMsgs u.Nick).getD ⟨[], []⟩).writers ++ [u.Conn]⟩,
                       written := ‹_›, taken := t.taken + ((t.clientMsgs u.Nick).getD ⟨[], []⟩).buf.length } u.Nick
              = serializers t u.Nick + 1 := by
            unfold serializers Transmit.setQueue
            cases hq : t.clientMsgs u.Nick <;> simp
          simp [connectedSince, hc, this]
        · have : serializers
              { t with clientMsgs := t.setQueue u.Nick ⟨[], ((t.clientMsgs u.Nick).getD ⟨[], []⟩).writers ++ [u.Conn]⟩,
                       written := ‹_›, taken := t.taken + ((t.clientMsgs u.Nick).getD ⟨[], []⟩).buf.length } nick
              = serializers t nick := by
            unfold serializers Transmit.setQueue
            simp [Ne.symm hk]
          simp [connectedSince, hk, this]
    · simp only [hc, if_false] at h
      by_cases hd : u.Update = ascii "disconnected"
      · simp only [hd, if_true] at h
        split at h
        · cases h
        · cases h
          by_cases hk : u.Nick = nick
          · subst hk
            have hne : ascii "disconnected" ≠ ascii "connected" := by decide
            simp [connectedSince, hd, serializers, hne]
          · have hne : ascii "disconnected" ≠ ascii "connected" := by decide
            simp [connectedSince, hk, serializers, Ne.symm hk, hd, hne]
      · simp only [hd, if_false] at h
        cases h
        simp [connectedSince, hc, hd]

theorem transmitRun_serializers (net : Net) (pick : Nat → Nat) (nick : Str)
    (evs : List TransmitInput) :
    ∀ (t0 t : Transmit), transmitRun net pick t0 evs = .ok t →
      serializers t nick = connectedSince nick (serializers t0 nick) evs := by
  induction evs with
  | nil =>
    intro t0 t h
    simp only [transmitRun] at h
    cases h; rfl
  | cons e rest ih =>
    intro t0 t h
    simp only [transmitRun] at h
    cases hs : transmitStep net pick t0 e with
    | error f => rw [hs] at h; cases h
    | ok t1 =>
      rw [hs] at h
      rw [ih t1 t h]
      exact transmitStep_serializers net pick t0 t1 e nick _ rfl hs rest

/-- C7. One connected session for `Bob` and the payload `100%|` enqueued for
`Bob`: what is written to the connection is `100%!|(MISSING)`, not the
payload, because `sendClient` formats the payload once more. -/
theorem transmit_rewrites_percent_payload :
    ∃ t, transmit Net.working (fun _ => 0)
        [.clientUpdates ⟨ascii "Bob", ascii "connected", 1⟩,
         .outbox ⟨ascii "Bob", ascii "100%|"⟩] = .ok t ∧
      writtenTo t 1 = [ascii "100%!|(MISSING)"] ∧
      writtenTo t 1 ≠ [ascii "100%|"] :=
  ⟨_, rfl, by decide, by decide⟩

/-- C9, as the claim states it: after two `connected` updates for `Bob`, two
serializer goroutines range over the one channel of `Bob`. -/
theorem transmit_two_connected_two_serializers :
    ∃ t, transmit Net.working (fun _ => 0)
        [.clientUpdates ⟨ascii "Bob", ascii "connected", 1⟩,
         .clientUpdates ⟨ascii "Bob", ascii "connected", 2⟩] = .ok t ∧
      serializers t (ascii "Bob") = 2 :=
  ⟨_, rfl, by decide⟩

/-- C9, amended. After every finite sequence of outbox messages and client
updates that `transmit` has processed, the number of serializer tasks that
consume the queue of a nick is the number of `connected` updates for that
nick since its last `disconnected` update; so a nick has at most one
serializer whenever at most one `connected` update for it has arrived since
its last `disconnected`. -/
theorem transmit_serializers_eq_connected_since (net : Net) (pick : Nat → Nat)
    (evs : List TransmitInput) (t : Transmit) (nick : Str) (h : transmit net pick evs = .ok t) :
    serializers t nick = connectedSince nick 0 evs ∧
    (connectedSince nick 0 evs ≤ 1 → serializers t nick ≤ 1) := by
  have e : serializers t nick = connectedSince nick 0 evs :=
    transmitRun_serializers net pick nick evs Transmit.init t h
  exact ⟨e, fun hle => e ▸ hle⟩

/-- C9, amended, on the inputs: `connected` for `Bob`, a message for `Bob`,
`disconnected` for `Bob`, `connected` for `Bob`. -/
theorem transmit_serializers_eq_connected_since_witness :
    ∃ t, transmit Net.working (fun _ => 0)
        [.clientUpdates ⟨ascii "Bob", ascii "connected", 1⟩,
         .outbox ⟨ascii "Bob", ascii "$Hi|"⟩,
         .clientUpdates ⟨ascii "Bob", ascii "disconnected", 1⟩,
         .clientUpdates ⟨ascii "Bob", ascii "connected", 2⟩] = .ok t ∧
      serializers t (ascii "Bob") = 1 :=
  ⟨_, rfl, (transmit_serializers_eq_connected_since Net.working (fun _ => 0)
    [.clientUpdates ⟨ascii "Bob", ascii "connected", 1⟩,
     .outbox ⟨ascii "Bob", ascii "$Hi|"⟩,
     .clientUpdates ⟨ascii "Bob", ascii "disconnected", 1⟩,
     .clientUpdates ⟨ascii "Bob", ascii "connected", 2⟩] _ (ascii "Bob") rfl).1.trans (by decide)⟩

/-! ### The peer session: publishing to live listeners -/

theorem publishLoop_live (pick : Nat → Bool) (msg : Msg) (pool : List clientListener) :
    ∀ (i : Nat) (d : ClientCycle),
      (∀ l ∈ pool, l.Done = false ∧ l.Messages.closed = false ∧
        l.Messages.buf.length + 1 ≤ l.Messages.cap) →
      d.listeners.length + pool.length ≤ poolCap →
      publishLoop pick msg pool i d =
        .ok ⟨d.listeners ++ pool.map (pushAll [msg]), d.seen ++ pool.map (pushAll [msg])⟩ := by
  induction pool with
  | nil => intro i d _ _; simp [publishLoop]
  | cons l rest ih =>
    intro i d hok hlen
    obtain ⟨hd, hopen, hroom⟩ := hok l (List.mem_cons_self _ _)
    simp only [List.length_cons] at hlen
    have hlt : d.listeners.length < poolCap := by omega
    obtain ⟨⟨buf, cap, closed⟩, done⟩ := l
    simp only at hd hopen hroom
    subst hd hopen
    have hr : buf.length < cap := by omega
    have key := ih (i + 1) ⟨d.listeners ++ [⟨⟨buf ++ [msg], cap, false⟩, false⟩],
      d.seen ++ [⟨⟨buf ++ [msg], cap, false⟩, false⟩]⟩
      (fun x hx => hok x (List.mem_cons_of_mem _ hx)) (by simp; omega)
    simp [publishLoop, Chan.canSend, hr, Chan.send, poolSend, hlt, key, pushAll]

theorem publishTopic_live (sched : Nat → Nat → Bool) (msg : Msg) (key : Option Str)
    (s : PeerSession) (h : ∀ k, key = some k → RoomAt s.m k 1) :
    publishTopic sched msg key s =
      .ok { s with m := pushKey s.m key msg, cycles := s.cycles + 1 } := by
  cases key with
  | none => simp [publishTopic, pushKey]
  | some k =>
    cases hp : s.m k with
    | none => simp [publishTopic, pushKey, pushTopic, hp]
    | some pool =>
      obtain ⟨hlen, hl⟩ := h k rfl pool hp
      have hf : (pool.map (pushAll [msg])).filter (fun l => l.Messages.closed) = [] := by
        rw [List.filter_eq_nil_iff]
        intro l hl'
        obtain ⟨l0, hl0, rfl⟩ := List.mem_map.mp hl'
        simp [pushAll, (hl l0 hl0).2.1]
      simp [publishTopic, hp, publishToListeners,
        publishLoop_live (sched s.cycles) msg pool 0 ⟨[], []⟩ hl (by simpa using hlen),
        pushKey, pushTopic, hf]

theorem pushTopic_apply (m : Registry) (t : Str) (msg : Msg) (k : Str) :
    pushTopic m t msg k = if k = t then (m t).map (List.map (pushAll [msg])) else m k := by
  unfold pushTopic
  cases h : m t with
  | none =>
    by_cases hk : k = t
    · subst hk; simp [h]
    · simp [hk]
  | some pool => simp [Registry.set]

theorem RoomAt_push_same (m : Registry) (t : Str) (msg : Msg) (r : Nat) (h : RoomAt m t (r + 1)) :
    RoomAt (pushTopic m t msg) t r := by
  intro pool hp
  rw [pushTopic_apply] at hp
  simp only [if_true] at hp
  cases h0 : m t with
  | none => simp [h0] at hp
  | some p0 =>
    simp only [h0, Option.map_some'] at hp
    cases hp
    obtain ⟨hlen, hl⟩ := h p0 h0
    refine ⟨by simpa using hlen, ?_⟩
    intro l hl'
    obtain ⟨l0, hl0, rfl⟩ := List.mem_map.mp hl'
    obtain ⟨a, b, c⟩ := hl l0 hl0
    simp [pushAll, a, b]
    omega

theorem RoomAt_push_other (m : Registry) (t u : Str) (msg : Msg) (r : Nat) (htu : u ≠ t)
    (h : RoomAt m u r) : RoomAt (pushTopic m t msg) u r := by
  intro pool hp
  rw [pushTopic_apply] at hp
  simp only [htu, if_false] at hp
  exact h pool hp

theorem RoomAt_mono (m : Registry) (t : Str) (r r0 : Nat) (hle : r0 ≤ r) (h : RoomAt m t r) :
    RoomAt m t r0 := by
  intro pool hp
  obtain ⟨hlen, hl⟩ := h pool hp
  refine ⟨hlen, fun l hl' => ?_⟩
  obtain ⟨a, b, c⟩ := hl l hl'
  exact ⟨a, b, by omega⟩

/-! ### The peer session: reading and splitting the lines -/

theorem ReadString_line (w : Str) (d : Nat) (rest : Str) (h : d ∉ w) :
    ReadString (w ++ d :: rest) d = some (w ++ [d], rest) := by
  induction w with
  | nil => simp [ReadString]
  | cons b t ih =>
    have hb : b ≠ d := fun e => h (e ▸ List.mem_cons_self _ _)
    have ht : d ∉ t := fun e => h (List.mem_cons_of_mem _ e)
    simp [ReadString, hb, ih ht]

theorem noSpace_nil : noSpace [] = true := rfl

theorem noSpace_of_ascii (w : Str) (h : ∀ c ∈ w, c < 0x80 ∧ IsSpace c = false) :
    noSpace w = true := by
  induction w with
  | nil => rfl
  | cons b t ih =>
    obtain ⟨hb, hs⟩ := h b (List.mem_cons_self _ _)
    have ht := ih (fun c hc => h c (List.mem_cons_of_mem _ hc))
    unfold noSpace at ht ⊢
    rw [runes_ascii_cons b t hb]
    simp [hs, ht]

theorem parseDigits_digits (s : Str) : ∀ (acc n : Nat), parseDigits s acc = some n →
    ∀ c ∈ s, 48 ≤ c ∧ c ≤ 57 := by
  induction s with
  | nil => intro _ _ _ c hc; simp at hc
  | cons b t ih =>
    intro acc n h c hc
    unfold parseDigits at h
    split_ifs at h with hb
    rcases List.mem_cons.mp hc with e | e
    · subst e; exact hb
    · exact ih _ _ h c e

theorem isSpace_false_of_sign_digit (c : Nat) (h : c = 45 ∨ c = 43 ∨ (48 ≤ c ∧ c ≤ 57)) :
    c < 0x80 ∧ IsSpace c = false ∧ c ≠ 0x7C := by
  have hlt : c < 0x80 := by omega
  have hne : c ≠ 0x7C := by omega
  refine ⟨hlt, ?_, hne⟩
  unfold IsSpace
  simp
  omega

theorem Atoi_body (c : Nat) (t : Str) (n : Int) (h : Atoi (c :: t) = some n) :
    ∃ k, parseDigits (if c = 45 ∨ c = 43 then t else c :: t) 0 = some k := by
  unfold Atoi at h
  simp only at h
  cases hp : parseDigits (if c = 45 ∨ c = 43 then t else c :: t) 0 with
  | some k => exact ⟨k, rfl⟩
  | none =>
    rw [hp] at h
    split_ifs at h

theorem Atoi_chars (s : Str) (n : Int) (h : Atoi s = some n) :
    s ≠ [] ∧ ∀ c ∈ s, c < 0x80 ∧ IsSpace c = false ∧ c ≠ 0x7C := by
  cases s with
  | nil => simp [Atoi] at h
  | cons c t =>
    refine ⟨by simp, ?_⟩
    obtain ⟨k, hp⟩ := Atoi_body c t n h
    by_cases hs : c = 45 ∨ c = 43
    · simp only [hs, if_true] at hp
      have hd := parseDigits_digits t 0 k hp
      intro x hx
      rcases List.mem_cons.mp hx with e | e
      · subst e
        exact isSpace_false_of_sign_digit x (by omega)
      · exact isSpace_false_of_sign_digit x (Or.inr (Or.inr (hd x e)))
    · simp only [hs, if_false] at hp
      have hd := parseDigits_digits (c :: t) 0 k hp
      intro x hx
      exact isSpace_false_of_sign_digit x (Or.inr (Or.inr (hd x hx)))

theorem Fields_myNick (nick : Str) (hn : noSpace nick = true) :
    Fields (ascii "$MyNick " ++ nick ++ ascii "|") = [ascii "$MyNick", nick ++ ascii "|"] := by
  have e : ascii "$MyNick " ++ nick ++ ascii "|" = ascii "$MyNick" ++ 0x20 :: (nick ++ [0x7C]) := by
    show ([36, 77, 121, 78, 105, 99, 107, 32] : Str) ++ nick ++ [124] =
      [36, 77, 121, 78, 105, 99, 107] ++ 32 :: (nick ++ [124])
    simp
  rw [e, Fields_word_space _ 0x20 _ (by decide) (by decide) (by decide) (by decide),
    Fields_word _ (noSpace_append_ascii nick 0x7C hn (by decide) (by decide)) (by simp)]
  rfl

theorem Fields_adcsnd (name start sz : Str) (hn : noSpace name = true) (hne : name ≠ [])
    (hs : noSpace start = true) (hse : start ≠ []) (hz : noSpace sz = true) :
    Fields (ascii "$ADCSND file " ++ name ++ ascii " " ++ start ++ ascii " " ++ sz ++ ascii "|") =
      [ascii "$ADCSND", ascii "file", name, start, sz ++ ascii "|"] := by
  have e : ascii "$ADCSND file " ++ name ++ ascii " " ++ start ++ ascii " " ++ sz ++ ascii "|" =
      ascii "$ADCSND" ++ 0x20 :: (ascii "file" ++ 0x20 :: (name ++ 0x20 :: (start ++ 0x20 ::
        (sz ++ [0x7C])))) := by
    show ([36, 65, 68, 67, 83, 78, 68, 32, 102, 105, 108, 101, 32] : Str) ++ name ++ [32] ++
        start ++ [32] ++ sz ++ [124] =
      [36, 65, 68, 67, 83, 78, 68] ++ 32 :: ([102, 105, 108, 101] ++ 32 :: (name ++ 32 ::
        (start ++ 32 :: (sz ++ [124]))))
    simp
  rw [e, Fields_word_space _ 0x20 _ (by decide) (by decide) (by decide) (by decide),
    Fields_word_space _ 0x20 _ (by decide) (by decide) (by decide) (by decide),
    Fields_word_space _ 0x20 _ hn hne (by decide) (by decide),
    Fields_word_space _ 0x20 _ hs hse (by decide) (by decide),
    Fields_word _ (noSpace_append_ascii sz 0x7C hz (by decide) (by decide)) (by simp)]
  rfl

theorem publishBoth_live (sched : Nat → Nat → Bool) (msg : Msg) (s : PeerSession)
    (h1 : ∀ k, s.cls = some k → RoomAt s.m k 1)
    (h2 : ∀ k, s.all_cls = some k → RoomAt (pushKey s.m s.cls msg) k 1) :
    publishBoth sched msg s =
      .ok { s with m := pushKey (pushKey s.m s.cls msg) s.all_cls msg, cycles := s.cycles + 2 } := by
  unfold publishBoth
  rw [publishTopic_live sched msg s.cls s h1]
  simp only
  rw [publishTopic_live sched msg s.all_cls _ h2]

theorem pair_step (m : Registry) (cls all_cls : Option Str) (msg : Msg) (r : Nat)
    (h : PairRoom m cls all_cls (r + 1)) :
    (∀ k, cls = some k → RoomAt m k 1) ∧
    (∀ k, all_cls = some k → RoomAt (pushKey m cls msg) k 1) ∧
    PairRoom (pushKey (pushKey m cls msg) all_cls msg) cls all_cls r := by
  obtain ⟨hc, ha⟩ := h
  cases cls with
  | none =>
    cases all_cls with
    | none => exact ⟨by simp, by simp, by simp [PairRoom]⟩
    | some b =>
      have hb : RoomAt m b (r + 1) := by simpa using ha b rfl
      refine ⟨by simp, ?_, ?_⟩
      · intro k hk
        cases hk
        exact RoomAt_mono m b _ _ (by omega) hb
      · refine ⟨by simp, ?_⟩
        intro k hk
        cases hk
        simpa [pushKey] using RoomAt_push_same m b msg r hb
  | some a =>
    cases all_cls with
    | none =>
      have hA : RoomAt m a (r + 1) := by simpa using hc a rfl
      refine ⟨?_, by simp, ?_⟩
      · intro k hk
        cases hk
        exact RoomAt_mono m a _ _ (by omega) hA
      · refine ⟨?_, by simp⟩
        intro k hk
        cases hk
        simpa [pushKey] using RoomAt_push_same m a msg r hA
    | some b =>
      by_cases hab : a = b
      · subst hab
        have hA : RoomAt m a (2 * r + 1 + 1) := by
          have := hc a rfl
          simp only [if_true] at this
          exact RoomAt_mono m a _ _ (by omega) this
        have h1 := RoomAt_push_same m a msg (2 * r + 1) hA
        have h2 := RoomAt_push_same (pushTopic m a msg) a msg (2 * r) h1
        refine ⟨?_, ?_, ?_, ?_⟩
        · intro k hk
          cases hk
          exact RoomAt_mono m a _ _ (by omega) hA
        · intro k hk
          cases hk
          exact RoomAt_mono _ a _ _ (by omega) h1
        · intro k hk
          cases hk
          simpa [pushKey] using h2
        · intro k hk
          cases hk
          simpa [pushKey] using h2
      · have hA : RoomAt m a (r + 1) := by
          have := hc a rfl
          have hne : ¬ (some b = some a) := fun e => hab (Option.some.inj e).symm
          simpa [hne] using this
        have hB : RoomAt m b (r + 1) := by
          have := ha b rfl
          have hne : ¬ (some a = some b) := fun e => hab (Option.some.inj e)
          simpa [hne] using this
        have hba : b ≠ a := fun e => hab e.symm
        refine ⟨?_, ?_, ?_, ?_⟩
        · intro k hk
          cases hk
          exact RoomAt_mono m a _ _ (by omega) hA
        · intro k hk
          cases hk
          exact RoomAt_mono _ b _ _ (by omega) (RoomAt_push_other m a b msg _ hba hB)
        · intro k hk
          cases hk
          have hne : ¬ (some b = some a) := fun e => hab (Option.some.inj e).symm
          simp only [hne, if_false, pushKey]
          exact RoomAt_push_other _ b a msg _ hab (RoomAt_push_same m a msg r hA)
        · intro k hk
          cases hk
          have hne : ¬ (some a = some b) := fun e => hab (Option.some.inj e)
          simp only [hne, if_false, pushKey]
          exact RoomAt_push_same _ b msg r (RoomAt_push_other m a b msg _ hba hB)

theorem publishBoth_pair (sched : Nat → Nat → Bool) (msg : Msg) (s : PeerSession) (r : Nat)
    (h : PairRoom s.m s.cls s.all_cls (r + 1)) :
    publishBoth sched msg s =
      .ok { s with m := pushKey (pushKey s.m s.cls msg) s.all_cls msg, cycles := s.cycles + 2 } ∧
    PairRoom (pushKey (pushKey s.m s.cls msg) s.all_cls msg) s.cls s.all_cls r := by
  obtain ⟨h1, h2, h3⟩ := pair_step s.m s.cls s.all_cls msg r h
  exact ⟨publishBoth_live sched msg s h1 h2, h3⟩

/-! ### The peer session: the three lines of a transfer -/

theorem closeAll_open (ls : List clientListener) (h : ∀ l ∈ ls, l.Messages.closed = false) :
    closeAll ls = .ok (ls.map closedListener) := by
  induction ls with
  | nil => rfl
  | cons l rest ih =>
    have hl := h l (List.mem_cons_self _ _)
    have hr := ih (fun x hx => h x (List.mem_cons_of_mem _ hx))
    simp [closeAll, Chan.close, hl, hr, closedListener]

theorem sendClient_literal (net : Net) (written : List (Nat × Str)) (conn : Nat) (msg : Str)
    (h : sprintf0 msg = msg) (hacc : net.accepts written conn = true) :
    sendClient net written conn msg [] = .ok (written ++ [(conn, msg)]) := by
  simp [sendClient, Sprintf, h, hacc]

theorem sendClient_refused (net : Net) (written : List (Nat × Str)) (conn : Nat) (msg : Str)
    (args : List Arg) (m : Str) (h : Sprintf msg args = some m)
    (hacc : net.accepts written conn = false) :
    sendClient net written conn msg args = .error .fatal := by
  simp [sendClient, h, hacc]

theorem sendClient_key (net : Net) (written : List (Nat × Str)) (conn : Nat) (key : Str)
    (hacc : net.accepts written conn = true) :
    sendClient net written conn (ascii "$Key %s|") [Arg.str key] =
      .ok (written ++ [(conn, ascii "$Key " ++ key ++ ascii "|")]) := by
  simp [sendClient, Sprintf_key, hacc]

theorem handleLine_myNick (env : PeerEnv) (conn : Nat)
    (nick : Str) (s : PeerSession) (r : Nat) (hn : noSpace nick = true)
    (hacc : env.net.accepts s.written conn = true)
    (hp : PairRoom (match s.m nick with | some _ => s.m | none => s.m.set nick [])
      (some nick) s.all_cls (r + 1)) :
    handleLine env conn (ascii "$MyNick " ++ nick ++ ascii "|") s =
      .ok ({ s with
          otherNick := nick, cls := some nick,
          m := pushKey (pushKey (match s.m nick with | some _ => s.m | none => s.m.set nick [])
            (some nick) (Msg.str (ascii "$MyNick " ++ nick ++ ascii "|"))) s.all_cls
            (Msg.str (ascii "$MyNick " ++ nick ++ ascii "|")),
          clientUpdates := s.clientUpdates ++ [⟨nick, ascii "connected", conn⟩],
          written := s.written ++
            [(conn, ascii "$Lock EXTENDEDPROTOCOL/wut? Pk=gdc,Ref=10.109.49.49:411|")],
          cycles := s.cycles + 2 }, false) := by
  have hpre : HasPrefix (ascii "$MyNick " ++ nick ++ ascii "|") (ascii "$MyNick ") = true := by
    simp [HasPrefix, ascii, List.isPrefixOf]
  have hlock : HasPrefix (ascii "$MyNick " ++ nick ++ ascii "|") (ascii "$Lock") = false := by
    simp [HasPrefix, ascii, List.isPrefixOf]
  have hadc : HasPrefix (ascii "$MyNick " ++ nick ++ ascii "|") (ascii "$ADCSND file") = false := by
    simp [HasPrefix, ascii, List.isPrefixOf]
  have hlen : (nick ++ ascii "|").length ≠ 0 := by simp [ascii]
  have htake : (nick ++ ascii "|").take ((nick ++ ascii "|").length - 1) = nick := by
    simp [ascii]
  have hsend := sendClient_literal env.net s.written conn
    (ascii "$Lock EXTENDEDPROTOCOL/wut? Pk=gdc,Ref=10.109.49.49:411|") (by decide) hacc
  have hmy : myNickStep env.net conn (ascii "$MyNick " ++ nick ++ ascii "|") s =
      .ok { s with otherNick := nick, cls := some nick,
                   m := (match s.m nick with | some _ => s.m | none => s.m.set nick []),
                   clientUpdates := s.clientUpdates ++ [⟨nick, ascii "connected", conn⟩],
                   written := s.written ++
                     [(conn, ascii "$Lock EXTENDEDPROTOCOL/wut? Pk=gdc,Ref=10.109.49.49:411|")] } := by
    unfold myNickStep
    simp only [hpre, if_true, Fields_myNick nick hn, List.getElem?_cons_succ,
      List.getElem?_cons_zero, hlen, if_false, htake, hsend]
  have hpub := publishBoth_pair env.sched (Msg.str (ascii "$MyNick " ++ nick ++ ascii "|"))
    { s with otherNick := nick, cls := some nick,
             m := (match s.m nick with | some _ => s.m | none => s.m.set nick []),
             clientUpdates := s.clientUpdates ++ [⟨nick, ascii "connected", conn⟩],
             written := s.written ++
               [(conn, ascii "$Lock EXTENDEDPROTOCOL/wut? Pk=gdc,Ref=10.109.49.49:411|")] } r hp
  unfold handleLine
  rw [hmy]
  simp only [lockStep, hlock, hpub.1, hadc, Bool.false_eq_true, if_false]

theorem handleLine_lockXYZ (env : PeerEnv) (conn : Nat)
    (s : PeerSession) (r : Nat) (hp : PairRoom s.m s.cls s.all_cls (r + 1))
    (hacc1 : env.net.accepts s.written conn = true)
    (hacc2 : env.net.accepts (s.written ++
      [(conn, ascii "$Supports MiniSlots XmlBZList ADCGet TTHL TTHF|")]) conn = true)
    (hacc3 : env.net.accepts (s.written ++
      [(conn, ascii "$Supports MiniSlots XmlBZList ADCGet TTHL TTHF|"),
       (conn, ascii "$Direction Download 29000|")]) conn = true) :
    handleLine env conn (ascii "$Lock XYZ|") s =
      .ok ({ s with
          m := pushKey (pushKey s.m s.cls (Msg.str (ascii "$Lock XYZ|"))) s.all_cls
            (Msg.str (ascii "$Lock XYZ|")),
          written := s.written ++
            [(conn, ascii "$Supports MiniSlots XmlBZList ADCGet TTHL TTHF|"),
             (conn, ascii "$Direction Download 29000|"),
             (conn, ascii "$Key " ++ env.LockToKey (ascii "XYZ|") ++ ascii "|")],
          cycles := s.cycles + 2 }, false) := by
  have hmy : myNickStep env.net conn (ascii "$Lock XYZ|") s = .ok s := by
    unfold myNickStep
    have : HasPrefix (ascii "$Lock XYZ|") (ascii "$MyNick ") = false := by decide
    simp only [this]
    rfl
  have hF : (Fields (ascii "$Lock XYZ|"))[1]? = some (ascii "XYZ|") := by decide
  have hlk : lockStep env.LockToKey env.net conn (ascii "$Lock XYZ|") s =
      .ok { s with written := s.written ++
            [(conn, ascii "$Supports MiniSlots XmlBZList ADCGet TTHL TTHF|"),
             (conn, ascii "$Direction Download 29000|"),
             (conn, ascii "$Key " ++ env.LockToKey (ascii "XYZ|") ++ ascii "|")] } := by
    unfold lockStep
    have h0 : HasPrefix (ascii "$Lock XYZ|") (ascii "$Lock") = true := by decide
    have hS1 := sendClient_literal env.net s.written conn
      (ascii "$Supports MiniSlots XmlBZList ADCGet TTHL TTHF|") (by decide) hacc1
    have hS2 := sendClient_literal env.net _ conn (ascii "$Direction Download 29000|")
      (by decide) hacc2
    have hacc3b : env.net.accepts ((s.written ++
        [(conn, ascii "$Supports MiniSlots XmlBZList ADCGet TTHL TTHF|")]) ++
        [(conn, ascii "$Direction Download 29000|")]) conn = true := by
      simpa using hacc3
    have hS3 := sendClient_key env.net _ conn (env.LockToKey (ascii "XYZ|")) hacc3b
    simp only [h0, if_true, hS1, hS2, hF, hS3]
    simp
  have hpub := publishBoth_pair env.sched (Msg.str (ascii "$Lock XYZ|"))
    { s with written := s.written ++
            [(conn, ascii "$Supports MiniSlots XmlBZList ADCGet TTHL TTHF|"),
             (conn, ascii "$Direction Download 29000|"),
             (conn, ascii "$Key " ++ env.LockToKey (ascii "XYZ|") ++ ascii "|")] } r hp
  have hadc : HasPrefix (ascii "$Lock XYZ|") (ascii "$ADCSND file") = false := by decide
  unfold handleLine
  rw [hmy]
  simp only [hlk, hpub.1, hadc, Bool.false_eq_true, if_false]

theorem ReadFull_exact (payload after : Str) :
    ReadFull (payload ++ after) payload.length = some (payload, after) := by
  simp [ReadFull]

theorem handleLine_adcsnd (env : PeerEnv) (conn : Nat)
    (name start sz payload after : Str) (s : PeerSession) (r : Nat)
    (hn : noSpace name = true) (hne : name ≠ []) (hs : noSpace start = true) (hse : start ≠ [])
    (hz : Atoi sz = some (payload.length : Int)) (hmax : payload.length ≤ env.maxAlloc)
    (hrd : s.reader = payload ++ after)
    (hp : PairRoom s.m s.cls s.all_cls (r + 1 + 1)) :
    handleLine env conn
        (ascii "$ADCSND file " ++ name ++ ascii " " ++ start ++ ascii " " ++ sz ++ ascii "|") s =
      .ok ({ s with
          reader := after,
          m := (pushKey (pushKey (pushKey (pushKey s.m s.cls
              (Msg.str (ascii "$ADCSND file " ++ name ++ ascii " " ++ start ++ ascii " " ++ sz ++ ascii "|")))
                s.all_cls
              (Msg.str (ascii "$ADCSND file " ++ name ++ ascii " " ++ start ++ ascii " " ++ sz ++ ascii "|")))
                s.cls (Msg.bytes payload)) s.all_cls (Msg.bytes payload)).delete s.otherNick,
          closed := s.closed ++
            (match s.cls with
              | none => []
              | some k => ((pushKey (pushKey (pushKey (pushKey s.m s.cls
                  (Msg.str (ascii "$ADCSND file " ++ name ++ ascii " " ++ start ++ ascii " " ++ sz ++ ascii "|")))
                    s.all_cls
                  (Msg.str (ascii "$ADCSND file " ++ name ++ ascii " " ++ start ++ ascii " " ++ sz ++ ascii "|")))
                    s.cls (Msg.bytes payload)) s.all_cls (Msg.bytes payload)) k).getD []).map
              closedListener,
          cycles := s.cycles + 2 + 2 }, true) := by
  generalize hl3 : ascii "$ADCSND file " ++ name ++ ascii " " ++ start ++ ascii " " ++ sz ++ ascii "|" = l3
  have hzc := Atoi_chars sz _ hz
  have hzs : noSpace sz = true := noSpace_of_ascii sz (fun c hc => ⟨(hzc.2 c hc).1, (hzc.2 c hc).2.1⟩)
  have hF : Fields l3 = [ascii "$ADCSND", ascii "file", name, start, sz ++ ascii "|"] := by
    rw [← hl3]; exact Fields_adcsnd name start sz hn hne hs hse hzs
  have hmyp : HasPrefix l3 (ascii "$MyNick ") = false := by
    rw [← hl3]; simp [HasPrefix, ascii, List.isPrefixOf]
  have hlock : HasPrefix l3 (ascii "$Lock") = false := by
    rw [← hl3]; simp [HasPrefix, ascii, List.isPrefixOf]
  have hadc : HasPrefix l3 (ascii "$ADCSND file") = true := by
    rw [← hl3]; simp [HasPrefix, ascii, List.isPrefixOf]
  have hmy : myNickStep env.net conn l3 s = .ok s := by
    unfold myNickStep; simp [hmyp]
  have hlk : lockStep env.LockToKey env.net conn l3 s = .ok s := by
    unfold lockStep; simp [hlock]
  obtain ⟨hpub1, hp1⟩ := publishBoth_pair env.sched (Msg.str l3) s (r + 1) hp
  have hlen : (sz ++ ascii "|").length ≠ 0 := by simp [ascii]
  have htake : (sz ++ ascii "|").take ((sz ++ ascii "|").length - 1) = sz := by simp [ascii]
  obtain ⟨hpub2, hp2⟩ := publishBoth_pair env.sched (Msg.bytes payload)
    { s with m := pushKey (pushKey s.m s.cls (Msg.str l3)) s.all_cls (Msg.str l3),
             cycles := s.cycles + 2, reader := after } r hp1
  have hopen : ∀ k, s.cls = some k →
      ∀ l ∈ ((pushKey (pushKey (pushKey (pushKey s.m s.cls (Msg.str l3)) s.all_cls (Msg.str l3))
        s.cls (Msg.bytes payload)) s.all_cls (Msg.bytes payload)) k).getD [],
        l.Messages.closed = false := by
    intro k hk l hl
    cases hq : (pushKey (pushKey (pushKey (pushKey s.m s.cls (Msg.str l3)) s.all_cls (Msg.str l3))
        s.cls (Msg.bytes payload)) s.all_cls (Msg.bytes payload)) k with
    | none => rw [hq] at hl; simp at hl
    | some pool =>
      rw [hq] at hl
      exact ((hp2.1 k hk pool hq).2 l hl).2.1
  have hnot : ¬ ((payload.length : Int) < 0 ∨ env.maxAlloc < ((payload.length : Int)).toNat) := by
    simp only [Int.toNat_ofNat]
    omega
  have hadcs : adcsndStep env.sched env.maxAlloc l3
      { s with m := pushKey (pushKey s.m s.cls (Msg.str l3)) s.all_cls (Msg.str l3),
               cycles := s.cycles + 2 } =
      .ok { s with
          reader := after,
          m := (pushKey (pushKey (pushKey (pushKey s.m s.cls (Msg.str l3)) s.all_cls (Msg.str l3))
                s.cls (Msg.bytes payload)) s.all_cls (Msg.bytes payload)).delete s.otherNick,
          closed := s.closed ++
            (match s.cls with
              | none => []
              | some k => ((pushKey (pushKey (pushKey (pushKey s.m s.cls (Msg.str l3)) s.all_cls
                  (Msg.str l3)) s.cls (Msg.bytes payload)) s.all_cls (Msg.bytes payload)) k).getD []).map
              closedListener,
          cycles := s.cycles + 2 + 2 } := by
    unfold adcsndStep
    simp only [hF, List.getElem?_cons_succ, List.getElem?_cons_zero, hlen, if_false, htake, hz,
      hnot, Int.toNat_ofNat, hrd, ReadFull_exact, hpub2]
    cases hc : s.cls with
    | none => simp [closeAll, hmax]
    | some k =>
      have := closeAll_open _ (hopen k hc)
      simp only [hc] at this
      simp [this, hmax]
  unfold handleLine
  rw [hmy]
  simp only [hlk, hpub1, hadc, if_true, hadcs]

theorem handleLine_adcsnd_over (env : PeerEnv) (conn : Nat)
    (name start sz : Str) (n : Int) (s : PeerSession)
    (hn : noSpace name = true) (hne : name ≠ []) (hs : noSpace start = true) (hse : start ≠ [])
    (hz : Atoi sz = some n) (hover : n < 0 ∨ env.maxAlloc < n.toNat) (r : Nat)
    (hp : PairRoom s.m s.cls s.all_cls (r + 1)) :
    handleLine env conn (adcsndLine name start sz) s = .error .panic := by
  unfold adcsndLine
  generalize hl3 : ascii "$ADCSND file " ++ name ++ ascii " " ++ start ++ ascii " " ++ sz ++ ascii "|" = l3
  have hzc := Atoi_chars sz _ hz
  have hzs : noSpace sz = true := noSpace_of_ascii sz (fun c hc => ⟨(hzc.2 c hc).1, (hzc.2 c hc).2.1⟩)
  have hF : Fields l3 = [ascii "$ADCSND", ascii "file", name, start, sz ++ ascii "|"] := by
    rw [← hl3]; exact Fields_adcsnd name start sz hn hne hs hse hzs
  have hmyp : HasPrefix l3 (ascii "$MyNick ") = false := by
    rw [← hl3]; simp [HasPrefix, ascii, List.isPrefixOf]
  have hlock : HasPrefix l3 (ascii "$Lock") = false := by
    rw [← hl3]; simp [HasPrefix, ascii, List.isPrefixOf]
  have hadc : HasPrefix l3 (ascii "$ADCSND file") = true := by
    rw [← hl3]; simp [HasPrefix, ascii, List.isPrefixOf]
  have hmy : myNickStep env.net conn l3 s = .ok s := by
    unfold myNickStep; simp [hmyp]
  have hlk : lockStep env.LockToKey env.net conn l3 s = .ok s := by
    unfold lockStep; simp [hlock]
  obtain ⟨hpub1, -⟩ := publishBoth_pair env.sched (Msg.str l3) s r hp
  have hlen : (sz ++ ascii "|").length ≠ 0 := by simp [ascii]
  have htake : (sz ++ ascii "|").take ((sz ++ ascii "|").length - 1) = sz := by simp [ascii]
  have hadcs : adcsndStep env.sched env.maxAlloc l3
      { s with m := pushKey (pushKey s.m s.cls (Msg.str l3)) s.all_cls (Msg.str l3),
               cycles := s.cycles + 2 } = .error .panic := by
    unfold adcsndStep
    simp only [hF, List.getElem?_cons_succ, List.getElem?_cons_zero, hlen, if_false, htake, hz,
      hover, if_true]
  unfold handleLine
  rw [hmy]
  simp only [hlk, hpub1, hadc, if_true, hadcs]

theorem RoomAt_withTopic (m : Registry) (nick k : Str) (r : Nat) (h : RoomAt m k r) :
    RoomAt (withTopic m nick) k r := by
  unfold withTopic
  cases hq : m nick with
  | some _ => exact h
  | none =>
    intro pool hp
    by_cases hk : k = nick
    · subst hk
      simp [Registry.set] at hp
      subst hp
      simp
    · simp [Registry.set, hk] at hp
      exact h pool hp

theorem allCls_eq (m : Registry) (k : Str) (h : allCls m = some k) : k = ascii "*" := by
  unfold allCls at h
  split_ifs at h
  exact (Option.some.inj h).symm

theorem pairRoom_start (m : Registry) (nick : Str)
    (hN : RoomAt m nick (if nick = ascii "*" then 8 else 4))
    (hS : RoomAt m (ascii "*") (if nick = ascii "*" then 8 else 4)) :
    PairRoom (withTopic m nick) (some nick) (allCls m) (3 + 1) := by
  constructor
  · intro k hk
    cases hk
    apply RoomAt_withTopic
    by_cases ha : allCls m = some nick
    · have := allCls_eq m nick ha
      subst this
      simpa [ha] using hN
    · simp only [ha, if_false]
      exact RoomAt_mono m nick _ _ (by split_ifs <;> omega) hN
  · intro k hk
    have := allCls_eq m k hk
    subst this
    apply RoomAt_withTopic
    by_cases hn : nick = ascii "*"
    · subst hn
      simpa using hS
    · have hne : ¬ (some nick = some (ascii "*")) := fun e => hn (Option.some.inj e)
      simp only [hne, if_false]
      simpa [hn] using hS

theorem sessionLoop_succ (env : PeerEnv) (conn : Nat)
    (fuel : Nat) (reader otherNick : Str) (cls all_cls : Option Str) (m : Registry)
    (closed : List clientListener) (cu : List clientUpdate) (written : List (Nat × Str))
    (cycles : Nat) (msg rest : Str) (hr : ReadString reader 0x7C = some (msg, rest)) :
    sessionLoop env conn (fuel + 1)
        ⟨reader, otherNick, cls, all_cls, m, closed, cu, written, cycles⟩ =
      match handleLine env conn msg
          ⟨rest, otherNick, cls, all_cls, m, closed, cu, written, cycles⟩ with
      | .error e => .error e
      | .ok (s1, true) => .ok s1
      | .ok (s1, false) => sessionLoop env conn fuel s1 := by
  simp only [sessionLoop, hr]

theorem handleActiveConn_two_lines (env : PeerEnv) (u : User)
    (conn : Nat) (remote nick name start sz tail : Str) (m : Registry) (r : Nat)
    (hnick : noSpace nick = true) (hnb : 0x7C ∉ nick)
    (hnameb : 0x7C ∉ name) (hstartb : 0x7C ∉ start) (hszb : 0x7C ∉ sz)
    (hacc : ∀ k, k < 5 → env.net.accepts ((sessionReplies env.LockToKey u conn).take k) conn = true)
    (hp0 : PairRoom (withTopic m nick) (some nick) (allCls m) (r + 1 + 1)) :
    PairRoom (pushPair (pushPair (withTopic m nick) nick (allCls m) (Msg.str (myNickLine nick)))
          nick (allCls m) (Msg.str (ascii "$Lock XYZ|"))) (some nick) (allCls m) r ∧
    handleActiveConn env u conn remote
        (myNickLine nick ++ ascii "$Lock XYZ|" ++ adcsndLine name start sz ++ tail) m =
      match handleLine env conn (adcsndLine name start sz)
        ⟨tail, nick, some nick, allCls m,
          pushPair (pushPair (withTopic m nick) nick (allCls m) (Msg.str (myNickLine nick)))
            nick (allCls m) (Msg.str (ascii "$Lock XYZ|")), [],
          [⟨nick, ascii "connected", conn⟩], sessionReplies env.LockToKey u conn, 4⟩ with
      | .error e => .error e
      | .ok (s1, true) => .ok s1
      | .ok (s1, false) => sessionLoop env conn
          ((myNickLine nick ++ ascii "$Lock XYZ|" ++ adcsndLine name start sz ++ tail).length - 2)
          s1 := by
  have hsend : sendClient env.net [] conn (ascii "$MyNick %s|") [Arg.str u.Nick] =
      .ok [(conn, ascii "$MyNick " ++ u.Nick ++ ascii "|")] := by
    have h0 : env.net.accepts [] conn = true := hacc 0 (by omega)
    simp only [sendClient, h0, if_true]
    rfl
  -- the three reads
  have hr1 : ∀ rest, ReadString (myNickLine nick ++ rest) 0x7C = some (myNickLine nick, rest) := by
    intro rest
    have := ReadString_line (ascii "$MyNick " ++ nick) 0x7C rest
      (by simp [ascii, hnb])
    simpa [myNickLine, ascii] using this
  have hr2 : ∀ rest, ReadString (ascii "$Lock XYZ|" ++ rest) 0x7C =
      some (ascii "$Lock XYZ|", rest) := by
    intro rest
    have := ReadString_line (ascii "$Lock XYZ") 0x7C rest (by decide)
    simpa [ascii] using this
  have hr3 : ∀ rest, ReadString (adcsndLine name start sz ++ rest) 0x7C =
      some (adcsndLine name start sz, rest) := by
    intro rest
    have := ReadString_line (ascii "$ADCSND file " ++ name ++ ascii " " ++ start ++ ascii " " ++ sz)
      0x7C rest (by simp [ascii, hnameb, hstartb, hszb])
    simpa [adcsndLine, ascii] using this
  have hfuel : (myNickLine nick ++ ascii "$Lock XYZ|" ++ adcsndLine name start sz ++ tail).length + 1 =
      ((myNickLine nick ++ ascii "$Lock XYZ|" ++ adcsndLine name start sz ++ tail).length - 2)
        + 1 + 1 + 1 := by
    have : 2 ≤ (myNickLine nick ++ ascii "$Lock XYZ|" ++ adcsndLine name start sz ++ tail).length := by
      simp [myNickLine, ascii]
    omega
  -- first line
  have e1 : myNickLine nick ++ ascii "$Lock XYZ|" ++ adcsndLine name start sz ++ tail =
      myNickLine nick ++ (ascii "$Lock XYZ|" ++ (adcsndLine name start sz ++ tail)) := by
    simp
  have h1 : handleLine env conn (myNickLine nick)
      ⟨ascii "$Lock XYZ|" ++ (adcsndLine name start sz ++ tail),
        remote, none, allCls m, m, [], [], [(conn, ascii "$MyNick " ++ u.Nick ++ ascii "|")], 0⟩ =
      .ok (⟨ascii "$Lock XYZ|" ++ (adcsndLine name start sz ++ tail),
        nick, some nick, allCls m,
        pushPair (withTopic m nick) nick (allCls m) (Msg.str (myNickLine nick)), [],
        [⟨nick, ascii "connected", conn⟩],
        [(conn, ascii "$MyNick " ++ u.Nick ++ ascii "|"),
         (conn, ascii "$Lock EXTENDEDPROTOCOL/wut? Pk=gdc,Ref=10.109.49.49:411|")], 2⟩, false) :=
    handleLine_myNick env conn nick
      ⟨ascii "$Lock XYZ|" ++ (adcsndLine name start sz ++ tail),
        remote, none, allCls m, m, [], [], [(conn, ascii "$MyNick " ++ u.Nick ++ ascii "|")], 0⟩
      (r + 1) hnick (hacc 1 (by omega)) hp0
  obtain ⟨-, -, hp1⟩ := pair_step (withTopic m nick) (some nick) (allCls m)
    (Msg.str (myNickLine nick)) (r + 1) hp0
  have h2 : handleLine env conn (ascii "$Lock XYZ|")
      ⟨adcsndLine name start sz ++ tail,
        nick, some nick, allCls m,
        pushPair (withTopic m nick) nick (allCls m) (Msg.str (myNickLine nick)), [],
        [⟨nick, ascii "connected", conn⟩],
        [(conn, ascii "$MyNick " ++ u.Nick ++ ascii "|"),
         (conn, ascii "$Lock EXTENDEDPROTOCOL/wut? Pk=gdc,Ref=10.109.49.49:411|")], 2⟩ =
      .ok (⟨adcsndLine name start sz ++ tail,
        nick, some nick, allCls m,
        pushPair (pushPair (withTopic m nick) nick (allCls m) (Msg.str (myNickLine nick)))
          nick (allCls m) (Msg.str (ascii "$Lock XYZ|")), [],
        [⟨nick, ascii "connected", conn⟩],
        sessionReplies env.LockToKey u conn, 4⟩, false) :=
    handleLine_lockXYZ env conn
      ⟨adcsndLine name start sz ++ tail,
        nick, some nick, allCls m,
        pushPair (withTopic m nick) nick (allCls m) (Msg.str (myNickLine nick)), [],
        [⟨nick, ascii "connected", conn⟩],
        [(conn, ascii "$MyNick " ++ u.Nick ++ ascii "|"),
         (conn, ascii "$Lock EXTENDEDPROTOCOL/wut? Pk=gdc,Ref=10.109.49.49:411|")], 2⟩ r hp1
      (hacc 2 (by omega)) (hacc 3 (by omega)) (hacc 4 (by omega))
  obtain ⟨-, -, hp2⟩ := pair_step _ (some nick) (allCls m) (Msg.str (ascii "$Lock XYZ|")) r hp1
  refine ⟨hp2, ?_⟩
  unfold handleActiveConn
  rw [hsend, hfuel, e1]
  show sessionLoop env conn _ ⟨_, remote, none, allCls m, m, [], [], _, 0⟩ = _
  rw [sessionLoop_succ _ _ _ _ _ _ _ _ _ _ _ _ _ _ (hr1 _), h1]
  simp only
  rw [sessionLoop_succ _ _ _ _ _ _ _ _ _ _ _ _ _ _ (hr2 _), h2]
  simp only
  rw [sessionLoop_succ _ _ _ _ _ _ _ _ _ _ _ _ _ _ (hr3 _)]

theorem handleActiveConn_run (env : PeerEnv) (u : User)
    (conn : Nat) (remote nick name start sz payload after : Str) (m : Registry)
    (hnick : noSpace nick = true) (hnb : 0x7C ∉ nick)
    (hname : noSpace name = true) (hname0 : name ≠ []) (hnameb : 0x7C ∉ name)
    (hstart : noSpace start = true) (hstart0 : start ≠ []) (hstartb : 0x7C ∉ start)
    (hsz : Atoi sz = some (payload.length : Int))
    (hmax : payload.length ≤ env.maxAlloc)
    (hacc : ∀ k, k < 5 → env.net.accepts ((sessionReplies env.LockToKey u conn).take k) conn = true)
    (hN : RoomAt m nick (if nick = ascii "*" then 8 else 4))
    (hS : RoomAt m (ascii "*") (if nick = ascii "*" then 8 else 4)) :
    handleActiveConn env u conn remote
        (peerInput nick name start sz payload after) m =
      .ok { reader := after, otherNick := nick, cls := some nick, all_cls := allCls m,
            m := (pushPair (pushPair (pushPair (pushPair (withTopic m nick) nick (allCls m)
                    (Msg.str (myNickLine nick))) nick (allCls m)
                    (Msg.str (ascii "$Lock XYZ|"))) nick (allCls m)
                    (Msg.str (adcsndLine name start sz))) nick (allCls m)
                    (Msg.bytes payload)).delete nick,
            closed := (((pushPair (pushPair (pushPair (pushPair (withTopic m nick) nick (allCls m)
                    (Msg.str (myNickLine nick))) nick (allCls m)
                    (Msg.str (ascii "$Lock XYZ|"))) nick (allCls m)
                    (Msg.str (adcsndLine name start sz))) nick (allCls m)
                    (Msg.bytes payload)) nick).getD []).map closedListener,
            clientUpdates := [⟨nick, ascii "connected", conn⟩],
            written := sessionReplies env.LockToKey u conn,
            cycles := 8 } := by
  have hzc := Atoi_chars sz _ hsz
  have hszb : 0x7C ∉ sz := fun h => (hzc.2 _ h).2.2 rfl
  obtain ⟨hp2, htwo⟩ := handleActiveConn_two_lines env u conn remote nick name start sz
    (payload ++ after) m 2 hnick hnb hnameb hstartb hszb hacc (pairRoom_start m nick hN hS)
  have h3 : handleLine env conn (adcsndLine name start sz)
      ⟨payload ++ after, nick, some nick, allCls m,
        pushPair (pushPair (withTopic m nick) nick (allCls m) (Msg.str (myNickLine nick)))
          nick (allCls m) (Msg.str (ascii "$Lock XYZ|")), [],
        [⟨nick, ascii "connected", conn⟩], sessionReplies env.LockToKey u conn, 4⟩ =
      .ok (⟨after, nick, some nick, allCls m,
        (pushPair (pushPair (pushPair (pushPair (withTopic m nick) nick (allCls m)
            (Msg.str (myNickLine nick))) nick (allCls m)
            (Msg.str (ascii "$Lock XYZ|"))) nick (allCls m)
            (Msg.str (adcsndLine name start sz))) nick (allCls m)
            (Msg.bytes payload)).delete nick,
        (((pushPair (pushPair (pushPair (pushPair (withTopic m nick) nick (allCls m)
            (Msg.str (myNickLine nick))) nick (allCls m)
            (Msg.str (ascii "$Lock XYZ|"))) nick (allCls m)
            (Msg.str (adcsndLine name start sz))) nick (allCls m)
            (Msg.bytes payload)) nick).getD []).map closedListener,
        [⟨nick, ascii "connected", conn⟩], sessionReplies env.LockToKey u conn, 8⟩, true) :=
    handleLine_adcsnd env conn name start sz payload after
      ⟨payload ++ after, nick, some nick, allCls m,
        pushPair (pushPair (withTopic m nick) nick (allCls m) (Msg.str (myNickLine nick)))
          nick (allCls m) (Msg.str (ascii "$Lock XYZ|")), [],
        [⟨nick, ascii "connected", conn⟩], sessionReplies env.LockToKey u conn, 4⟩
      0 hname hname0 hstart hstart0 hsz hmax rfl hp2
  have e : peerInput nick name start sz payload after =
      myNickLine nick ++ ascii "$Lock XYZ|" ++ adcsndLine name start sz ++ (payload ++ after) := by
    simp [peerInput]
  rw [e, htwo, h3]

theorem handleActiveConn_over_limit (env : PeerEnv) (u : User)
    (conn : Nat) (remote nick name start sz payload after : Str) (m : Registry) (n : Int)
    (hnick : noSpace nick = true) (hnb : 0x7C ∉ nick)
    (hname : noSpace name = true) (hname0 : name ≠ []) (hnameb : 0x7C ∉ name)
    (hstart : noSpace start = true) (hstart0 : start ≠ []) (hstartb : 0x7C ∉ start)
    (hsz : Atoi sz = some n) (hover : n < 0 ∨ env.maxAlloc < n.toNat)
    (hacc : ∀ k, k < 5 → env.net.accepts ((sessionReplies env.LockToKey u conn).take k) conn = true)
    (hN : RoomAt m nick (if nick = ascii "*" then 8 else 4))
    (hS : RoomAt m (ascii "*") (if nick = ascii "*" then 8 else 4)) :
    handleActiveConn env u conn remote (peerInput nick name start sz payload after) m =
      .error .panic := by
  have hzc := Atoi_chars sz _ hsz
  have hszb : 0x7C ∉ sz := fun h => (hzc.2 _ h).2.2 rfl
  obtain ⟨hp2, htwo⟩ := handleActiveConn_two_lines env u conn remote nick name start sz
    (payload ++ after) m 2 hnick hnb hnameb hstartb hszb hacc (pairRoom_start m nick hN hS)
  have h3 := handleLine_adcsnd_over env conn name start sz n
      ⟨payload ++ after, nick, some nick, allCls m,
        pushPair (pushPair (withTopic m nick) nick (allCls m) (Msg.str (myNickLine nick)))
          nick (allCls m) (Msg.str (ascii "$Lock XYZ|")), [],
        [⟨nick, ascii "connected", conn⟩], sessionReplies env.LockToKey u conn, 4⟩
      hname hname0 hstart hstart0 hsz hover 1 hp2
  have e : peerInput nick name start sz payload after =
      myNickLine nick ++ ascii "$Lock XYZ|" ++ adcsndLine name start sz ++ (payload ++ after) := by
    simp [peerInput]
  rw [e, htwo, h3]

theorem pushAll_pushAll (a b : List Msg) (l : clientListener) :
    pushAll b (pushAll a l) = pushAll (a ++ b) l := by
  simp [pushAll]

theorem map_pushAll_pushAll (a b : List Msg) (pool : List clientListener) :
    (pool.map (pushAll a)).map (pushAll b) = pool.map (pushAll (a ++ b)) := by
  simp [List.map_map, Function.comp_def, pushAll_pushAll]

theorem pushPair_apply_ne (M : Registry) (nick : Str) (A : Option Str) (msg : Msg) (k : Str)
    (h1 : k ≠ nick) (h2 : A ≠ some k) : pushPair M nick A msg k = M k := by
  unfold pushPair pushKey
  cases A with
  | none => simp [pushTopic_apply, h1]
  | some a =>
    have : k ≠ a := fun e => h2 (e ▸ rfl)
    simp [pushTopic_apply, h1, this]

theorem pushPair_apply_nick (M : Registry) (nick : Str) (A : Option Str) (msg : Msg)
    (h : A ≠ some nick) :
    pushPair M nick A msg nick = (M nick).map (List.map (pushAll [msg])) := by
  unfold pushPair pushKey
  cases A with
  | none => simp [pushTopic_apply]
  | some a =>
    have : nick ≠ a := fun e => h (e ▸ rfl)
    simp [pushTopic_apply, this]

theorem pushPair_apply_all (M : Registry) (nick a : Str) (msg : Msg) (h : a ≠ nick) :
    pushPair M nick (some a) msg a = (M a).map (List.map (pushAll [msg])) := by
  unfold pushPair pushKey
  simp [pushTopic_apply, h]

theorem pushPair_apply_same (M : Registry) (nick : Str) (msg : Msg) :
    pushPair M nick (some nick) msg nick = (M nick).map (List.map (pushAll [msg, msg])) := by
  unfold pushPair pushKey
  simp only [pushTopic_apply, if_true, Option.map_map]
  cases M nick with
  | none => rfl
  | some pool => simp [Function.comp_def, pushAll_pushAll]

theorem withTopic_nick (m : Registry) (nick : Str) :
    withTopic m nick nick = some ((m nick).getD []) := by
  unfold withTopic
  cases h : m nick with
  | none => simp [Registry.set]
  | some pool => simp [h]

theorem withTopic_ne (m : Registry) (nick k : Str) (h : k ≠ nick) : withTopic m nick k = m k := by
  unfold withTopic
  cases m nick with
  | none => simp [Registry.set, h]
  | some pool => rfl

/-- C6, amended. For every nick, every non-empty file name and start offset
(none of the three with whitespace or `|`), every payload no longer than the
largest byte slice `make` allocates, and every size field that Atoi reads
as the length of the payload: when the connection accepts the five messages
the session writes, and every listener of topic `<nick>` and of `*` is live,
with an open queue and room for the four messages (eight when `<nick>` is
`*`), a connection that delivers
`$MyNick <nick>|$Lock XYZ|$ADCSND file <name> <start> <size>|` and the
payload makes the session read exactly the payload, append the three lines
and the unmodified payload to the queue of every listener of `<nick>` and of
`*`, delete topic `<nick>` from the registry map, close the queue of every
listener of that topic, and return. -/
theorem handleActiveConn_publishes_payload_and_removes_topic (env : PeerEnv) (u : User)
    (conn : Nat) (remote nick name start sz payload after : Str) (m : Registry)
    (hnick : noSpace nick = true) (hnb : 0x7C ∉ nick)
    (hname : noSpace name = true) (hname0 : name ≠ []) (hnameb : 0x7C ∉ name)
    (hstart : noSpace start = true) (hstart0 : start ≠ []) (hstartb : 0x7C ∉ start)
    (hsz : Atoi sz = some (payload.length : Int))
    (hmax : payload.length ≤ env.maxAlloc)
    (hacc : ∀ k, k < 5 → env.net.accepts ((sessionReplies env.LockToKey u conn).take k) conn = true)
    (hN : RoomAt m nick (if nick = ascii "*" then 8 else 4))
    (hS : RoomAt m (ascii "*") (if nick = ascii "*" then 8 else 4)) :
    ∃ s, handleActiveConn env u conn remote
        (peerInput nick name start sz payload after) m = .ok s ∧
      s.reader = after ∧
      s.m nick = none ∧
      (∀ k, k ≠ nick → s.m k =
        if k = ascii "*" then (m k).map (List.map (pushAll (delivered nick name start sz payload)))
        else m k) ∧
      s.closed = ((m nick).getD []).map (fun l => closedListener
        (pushAll (if nick = ascii "*" then twice (delivered nick name start sz payload)
          else delivered nick name start sz payload) l)) ∧
      s.clientUpdates = [⟨nick, ascii "connected", conn⟩] ∧
      s.written = sessionReplies env.LockToKey u conn := by
  refine ⟨_, handleActiveConn_run env u conn remote nick name start sz payload after m
    hnick hnb hname hname0 hnameb hstart hstart0 hstartb hsz hmax hacc hN hS, rfl, ?_, ?_, ?_,
    rfl, rfl⟩
  · simp [Registry.delete]
  · intro k hk
    simp only [Registry.delete, hk, if_false]
    by_cases hks : k = ascii "*"
    · subst hks
      simp only [if_true]
      cases hm : m (ascii "*") with
      | none =>
        have hA : allCls m = none := by simp [allCls, hm]
        simp only [hA]
        rw [pushPair_apply_ne _ _ _ _ _ hk (by simp), pushPair_apply_ne _ _ _ _ _ hk (by simp),
          pushPair_apply_ne _ _ _ _ _ hk (by simp), pushPair_apply_ne _ _ _ _ _ hk (by simp),
          withTopic_ne _ _ _ hk, hm]
        rfl
      | some pool =>
        have hA : allCls m = some (ascii "*") := by simp [allCls, hm]
        simp only [hA]
        rw [pushPair_apply_all _ _ _ _ hk, pushPair_apply_all _ _ _ _ hk,
          pushPair_apply_all _ _ _ _ hk, pushPair_apply_all _ _ _ _ hk, withTopic_ne _ _ _ hk, hm]
        simp [delivered, Function.comp_def, pushAll_pushAll]
    · simp only [hks, if_false]
      have hA : allCls m ≠ some k := fun e => hks (allCls_eq m k e)
      rw [pushPair_apply_ne _ _ _ _ _ hk hA, pushPair_apply_ne _ _ _ _ _ hk hA,
        pushPair_apply_ne _ _ _ _ _ hk hA, pushPair_apply_ne _ _ _ _ _ hk hA,
        withTopic_ne _ _ _ hk]
  · by_cases hn : nick = ascii "*"
    · subst hn
      simp only [if_true]
      cases hm : m (ascii "*") with
      | none =>
        have hA : allCls m = none := by simp [allCls, hm]
        simp only [hA]
        rw [pushPair_apply_nick _ _ _ _ (by simp), pushPair_apply_nick _ _ _ _ (by simp),
          pushPair_apply_nick _ _ _ _ (by simp), pushPair_apply_nick _ _ _ _ (by simp),
          withTopic_nick, hm]
        simp
      | some pool =>
        have hA : allCls m = some (ascii "*") := by simp [allCls, hm]
        simp only [hA]
        rw [pushPair_apply_same, pushPair_apply_same, pushPair_apply_same, pushPair_apply_same,
          withTopic_nick, hm]
        simp [map_pushAll_pushAll, delivered, twice, Function.comp_def, pushAll_pushAll]
    · simp only [hn, if_false]
      have hA : allCls m ≠ some nick := fun e => hn (allCls_eq m nick e)
      rw [pushPair_apply_nick _ _ _ _ hA, pushPair_apply_nick _ _ _ _ hA,
        pushPair_apply_nick _ _ _ _ hA, pushPair_apply_nick _ _ _ _ hA, withTopic_nick]
      simp [map_pushAll_pushAll, delivered, Function.comp_def, pushAll_pushAll]

/-! ### The peer session: any line -/

theorem runes_snd_ne_nil (n : Nat) : ∀ (s : Str), s.length ≤ n → ∀ p ∈ runes s, p.2 ≠ [] := by
  induction n with
  | zero =>
    intro s hs p hp
    have : s = [] := List.length_eq_zero.mp (Nat.le_zero.mp hs)
    subst this
    simp [runes_nil] at hp
  | succ n ih =>
    intro s hs p hp
    cases s with
    | nil => simp [runes_nil] at hp
    | cons s0 t =>
      have hk := decode_size_pos s0 t
      rw [runes_cons] at hp
      rcases List.mem_cons.mp hp with e | e
      · subst e
        simp only
        intro h
        have := congrArg List.length h
        simp at this
        omega
      · exact ih _ (by simp only [List.length_drop, List.length_cons] at hs ⊢; omega) p e

theorem fieldsOf_ne_nil_mem (rs : List (Nat × Str)) (hrs : ∀ p ∈ rs, p.2 ≠ []) :
    ∀ (cur : Str) (inField : Bool), (inField = true → cur ≠ []) →
      ∀ f ∈ fieldsOf rs cur inField, f ≠ [] := by
  induction rs with
  | nil =>
    intro cur inField hc f hf
    cases inField with
    | false => simp [fieldsOf] at hf
    | true =>
      simp [fieldsOf] at hf
      subst hf
      exact hc rfl
  | cons p rs ih =>
    intro cur inField hc f hf
    obtain ⟨r, bs⟩ := p
    have hbs : bs ≠ [] := hrs (r, bs) (List.mem_cons_self _ _)
    have hrs1 : ∀ q ∈ rs, q.2 ≠ [] := fun q hq => hrs q (List.mem_cons_of_mem _ hq)
    by_cases hr : IsSpace r = true
    · simp only [fieldsOf, hr, if_true, List.mem_append] at hf
      rcases hf with hf | hf
      · cases inField with
        | false => simp at hf
        | true =>
          simp at hf
          subst hf
          exact hc rfl
      · exact ih hrs1 [] false (by simp) f hf
    · simp only [fieldsOf, hr, if_false] at hf
      exact ih hrs1 (cur ++ bs) true (fun _ => by simp [hbs]) f hf

theorem Fields_mem_ne_nil (s : Str) : ∀ f ∈ Fields s, f ≠ [] :=
  fieldsOf_ne_nil_mem (runes s) (runes_snd_ne_nil _ s (le_refl _)) [] false (by simp)

theorem Fields_getElem_ne_nil (s : Str) (i : Nat) (f : Str) (h : (Fields s)[i]? = some f) :
    f.length ≠ 0 := by
  have hm : f ∈ Fields s := List.getElem?_mem h
  have := Fields_mem_ne_nil s f hm
  intro h0
  exact this (List.length_eq_zero.mp h0)

theorem Fields_second (w rest : Str) (hw : noSpace w = true) (hne : w ≠ [])
    (hbar : (w ++ 0x20 :: rest).getLast? = some 0x7C) :
    ∃ f, (Fields (w ++ 0x20 :: rest))[1]? = some f := by
  have hrest : ∃ r, rest = r ++ [0x7C] := by
    rcases List.eq_nil_or_concat rest with h | ⟨r, b, h⟩
    · subst h
      simp [List.getLast?_append] at hbar
    · subst h
      refine ⟨r, ?_⟩
      have e : w ++ 0x20 :: r.concat b = (w ++ 0x20 :: r) ++ [b] := by simp
      rw [e, List.getLast?_concat] at hbar
      simp [Option.some.inj hbar]
  obtain ⟨r, rfl⟩ := hrest
  rw [Fields_word_space w 0x20 _ hw hne (by decide) (by decide)]
  have hnn := Fields_ne_nil_of_last r 0x7C (by decide) (by decide)
  cases hF : Fields (r ++ [0x7C]) with
  | nil => exact absurd hF hnn
  | cons a t => exact ⟨a, by simp⟩

theorem Fields_myNick_second (msg : Str) (hp : HasPrefix msg (ascii "$MyNick ") = true)
    (hbar : msg.getLast? = some 0x7C) : ∃ f, (Fields msg)[1]? = some f := by
  obtain ⟨rest, rfl⟩ := hasPrefix_split hp
  have e : ascii "$MyNick " ++ rest = ascii "$MyNick" ++ 0x20 :: rest := by
    show ([36, 77, 121, 78, 105, 99, 107, 32] : Str) ++ rest = [36, 77, 121, 78, 105, 99, 107] ++ 32 :: rest
    simp
  rw [e] at hbar ⊢
  exact Fields_second _ rest (by decide) (by decide) hbar

/-! ### The peer session: publishing to any pool with open queues -/

theorem publishLoop_fits (pick : Nat → Bool) (msg : Msg) (r : Nat) (pool : List clientListener) :
    ∀ (i : Nat) (d : ClientCycle),
      (∀ l ∈ pool, l.Messages.closed = false ∧
        (l.Done = false → l.Messages.buf.length + (r + 1) ≤ l.Messages.cap)) →
      d.listeners.length + pool.length ≤ poolCap →
      (∀ l ∈ d.listeners, l.Messages.closed = false ∧
        (l.Done = false → l.Messages.buf.length + r ≤ l.Messages.cap)) →
      ∃ d1, publishLoop pick msg pool i d = .ok d1 ∧
        d1.listeners.length ≤ d.listeners.length + pool.length ∧
        ∀ l ∈ d1.listeners, l.Messages.closed = false ∧
          (l.Done = false → l.Messages.buf.length + r ≤ l.Messages.cap) := by
  induction pool with
  | nil =>
    intro i d _ _ hd
    exact ⟨d, by simp [publishLoop], by simp, hd⟩
  | cons l rest ih =>
    intro i d hok hlen hd
    obtain ⟨hopen, hroom⟩ := hok l (List.mem_cons_self _ _)
    have hrest : ∀ x ∈ rest, x.Messages.closed = false ∧
        (x.Done = false → x.Messages.buf.length + (r + 1) ≤ x.Messages.cap) :=
      fun x hx => hok x (List.mem_cons_of_mem _ hx)
    simp only [List.length_cons] at hlen
    have hlt : d.listeners.length < poolCap := by omega
    obtain ⟨⟨buf, cap, closed⟩, done⟩ := l
    simp only at hopen hroom
    subst hopen
    by_cases hfirst : (done && (!(Chan.canSend ⟨buf, cap, false⟩) || pick i)) = true
    · obtain ⟨d1, h1, h2, h3⟩ := ih (i + 1)
        ⟨d.listeners, d.seen ++ [⟨⟨buf, cap, true⟩, done⟩]⟩ hrest (by simp; omega) hd
      refine ⟨d1, ?_, by simp at h2 ⊢; omega, h3⟩
      simp only [publishLoop, hfirst, if_true, Chan.close, Bool.false_eq_true, if_false]
      exact h1
    · have hcan : Chan.canSend (⟨buf, cap, false⟩ : Chan Msg) = true := by
        cases done with
        | true =>
          cases hc : Chan.canSend (⟨buf, cap, false⟩ : Chan Msg) with
          | true => rfl
          | false => simp [hc] at hfirst
        | false =>
          have := hroom rfl
          simp [Chan.canSend]
          omega
      have hbuf : buf.length < cap := by simpa [Chan.canSend] using hcan
      obtain ⟨d1, h1, h2, h3⟩ := ih (i + 1)
        ⟨d.listeners ++ [⟨⟨buf ++ [msg], cap, false⟩, done⟩],
          d.seen ++ [⟨⟨buf ++ [msg], cap, false⟩, done⟩]⟩ hrest (by simp; omega)
        (by
          intro x hx
          rcases List.mem_append.mp hx with hx | hx
          · exact hd x hx
          · simp only [List.mem_singleton] at hx
            subst hx
            refine ⟨rfl, fun hdn => ?_⟩
            have := hroom hdn
            simp only [List.length_append, List.length_singleton]
            omega)
      refine ⟨d1, ?_, by simp at h2 ⊢; omega, h3⟩
      rw [hcan] at hfirst
      simp only [publishLoop, hcan, hfirst, Bool.false_eq_true, if_false, if_true, Chan.send,
        poolSend, hlt]
      exact h1

theorem Fits_mono (m : Registry) (r r0 : Nat) (hle : r0 ≤ r) (h : Fits m r) : Fits m r0 := by
  intro k pool hp
  obtain ⟨hlen, hl⟩ := h k pool hp
  refine ⟨hlen, fun l hl' => ⟨(hl l hl').1, fun hd => ?_⟩⟩
  have := (hl l hl').2 hd
  omega

theorem publishTopic_fits (sched : Nat → Nat → Bool) (msg : Msg) (key : Option Str)
    (s : PeerSession) (r : Nat) (h : Fits s.m (r + 1)) :
    ∃ s1, publishTopic sched msg key s = .ok s1 ∧ Fits s1.m r ∧ s1.reader = s.reader ∧
      s1.cls = s.cls ∧ s1.all_cls = s.all_cls := by
  cases key with
  | none => exact ⟨_, rfl, Fits_mono _ _ _ (by omega) h, rfl, rfl, rfl⟩
  | some k =>
    cases hp : s.m k with
    | none =>
      refine ⟨{ s with cycles := s.cycles + 1 }, ?_, Fits_mono _ _ _ (by omega) h, rfl, rfl, rfl⟩
      simp [publishTopic, hp]
    | some pool =>
      obtain ⟨hlen, hl⟩ := h k pool hp
      obtain ⟨d1, h1, h2, h3⟩ := publishLoop_fits (sched s.cycles) msg r pool 0 ⟨[], []⟩ hl
        (by simpa using hlen) (by simp)
      refine ⟨{ s with m := s.m.set k d1.listeners,
                       closed := s.closed ++ d1.seen.filter fun l => l.Messages.closed,
                       cycles := s.cycles + 1 }, ?_, ?_, rfl, rfl, rfl⟩
      · simp [publishTopic, hp, publishToListeners, h1]
      · intro k1 pool1 hp1
        by_cases hk : k1 = k
        · subst hk
          simp only [Registry.set, if_true] at hp1
          cases hp1
          refine ⟨?_, h3⟩
          simp only [List.length_nil, Nat.zero_add] at h2
          omega
        · simp only [Registry.set, hk, if_false] at hp1
          exact Fits_mono _ _ _ (by omega) h k1 pool1 hp1

theorem publishBoth_fits (sched : Nat → Nat → Bool) (msg : Msg) (s : PeerSession) (r : Nat)
    (h : Fits s.m (r + 2)) :
    ∃ s2, publishBoth sched msg s = .ok s2 ∧ Fits s2.m r ∧ s2.reader = s.reader ∧
      s2.cls = s.cls ∧ s2.all_cls = s.all_cls := by
  obtain ⟨s1, h1, hf1, hr1, hc1, ha1⟩ := publishTopic_fits sched msg s.cls s (r + 1) h
  obtain ⟨s2, h2, hf2, hr2, hc2, ha2⟩ := publishTopic_fits sched msg s1.all_cls s1 r hf1
  refine ⟨s2, ?_, hf2, hr2.trans hr1, hc2.trans hc1, ha2.trans ha1⟩
  simp only [publishBoth, h1, h2]

/-! ### The peer session: the steps of one line -/

theorem myNick_not_lock (msg : Str) (hp : HasPrefix msg (ascii "$MyNick ") = true) :
    HasPrefix msg (ascii "$Lock") = false ∧ HasPrefix msg (ascii "$ADCSND file") = false := by
  obtain ⟨rest, rfl⟩ := hasPrefix_split hp
  constructor <;> simp [HasPrefix, ascii, List.isPrefixOf]

theorem lock_not_adcsnd (msg : Str) (hp : HasPrefix msg (ascii "$Lock") = true) :
    HasPrefix msg (ascii "$ADCSND file") = false := by
  obtain ⟨rest, rfl⟩ := hasPrefix_split hp
  simp [HasPrefix, ascii, List.isPrefixOf]

theorem Fits_set_nil (m : Registry) (nick : Str) (r : Nat) (h : Fits m r) :
    Fits (m.set nick []) r := by
  intro k pool hp
  by_cases hk : k = nick
  · subst hk
    simp [Registry.set] at hp
    subst hp
    simp
  · simp [Registry.set, hk] at hp
    exact h k pool hp

theorem myNickStep_cases (net : Net) (conn : Nat) (msg : Str) (s : PeerSession)
    (hbar : msg.getLast? = some 0x7C) (hp : HasPrefix msg (ascii "$MyNick ") = true) :
    (net.accepts s.written conn = false → myNickStep net conn msg s = .error .fatal) ∧
    (net.accepts s.written conn = true →
      ∃ s1, myNickStep net conn msg s = .ok s1 ∧ s1.reader = s.reader ∧
        ∀ r, Fits s.m r → Fits s1.m r) := by
  obtain ⟨f, hf⟩ := Fields_myNick_second msg hp hbar
  have hlen := Fields_getElem_ne_nil msg 1 f hf
  constructor
  · intro hacc
    have hsend := sendClient_refused net s.written conn
      (ascii "$Lock EXTENDEDPROTOCOL/wut? Pk=gdc,Ref=10.109.49.49:411|") []
      (ascii "$Lock EXTENDEDPROTOCOL/wut? Pk=gdc,Ref=10.109.49.49:411|") (by decide) hacc
    unfold myNickStep
    simp only [hp, if_true, hf, hlen, if_false, hsend]
  · intro hacc
    have hsend := sendClient_literal net s.written conn
      (ascii "$Lock EXTENDEDPROTOCOL/wut? Pk=gdc,Ref=10.109.49.49:411|") (by decide) hacc
    unfold myNickStep
    simp only [hp, if_true, hf, hlen, if_false, hsend]
    refine ⟨_, rfl, rfl, ?_⟩
    intro r hr
    show Fits (match s.m (f.take (f.length - 1)) with
      | some _ => s.m
      | none => s.m.set (f.take (f.length - 1)) []) r
    cases hq : s.m (f.take (f.length - 1)) with
    | some _ => exact hr
    | none => exact Fits_set_nil s.m _ r hr

theorem lockStep_cases (LockToKey : Str → Str) (net : Net) (conn : Nat) (msg : Str)
    (s : PeerSession) (f : Str) (hp : HasPrefix msg (ascii "$Lock") = true)
    (hf : (Fields msg)[1]? = some f) :
    (net.accepts s.written conn = false →
      lockStep LockToKey net conn msg s = .error .fatal) ∧
    (net.accepts s.written conn = true →
      (net.accepts (s.written ++
          [(conn, ascii "$Supports MiniSlots XmlBZList ADCGet TTHL TTHF|")]) conn = false →
        lockStep LockToKey net conn msg s = .error .fatal) ∧
      (net.accepts (s.written ++
          [(conn, ascii "$Supports MiniSlots XmlBZList ADCGet TTHL TTHF|")]) conn = true →
        (net.accepts (s.written ++
            [(conn, ascii "$Supports MiniSlots XmlBZList ADCGet TTHL TTHF|"),
             (conn, ascii "$Direction Download 29000|")]) conn = false →
          lockStep LockToKey net conn msg s = .error .fatal) ∧
        (net.accepts (s.written ++
            [(conn, ascii "$Supports MiniSlots XmlBZList ADCGet TTHL TTHF|"),
             (conn, ascii "$Direction Download 29000|")]) conn = true →
          ∃ s2, lockStep LockToKey net conn msg s = .ok s2 ∧ s2.reader = s.reader ∧
            s2.m = s.m))) := by
  have e2 : (s.written ++ [(conn, ascii "$Supports MiniSlots XmlBZList ADCGet TTHL TTHF|")]) ++
      [(conn, ascii "$Direction Download 29000|")] = s.written ++
      [(conn, ascii "$Supports MiniSlots XmlBZList ADCGet TTHL TTHF|"),
       (conn, ascii "$Direction Download 29000|")] := by simp
  constructor
  · intro h0
    have hS1 := sendClient_refused net s.written conn
      (ascii "$Supports MiniSlots XmlBZList ADCGet TTHL TTHF|") []
      (ascii "$Supports MiniSlots XmlBZList ADCGet TTHL TTHF|") (by decide) h0
    unfold lockStep
    simp only [hp, if_true, hS1]
  · intro h0
    have hS1 := sendClient_literal net s.written conn
      (ascii "$Supports MiniSlots XmlBZList ADCGet TTHL TTHF|") (by decide) h0
    constructor
    · intro h1
      have hS2 := sendClient_refused net _ conn (ascii "$Direction Download 29000|") []
        (ascii "$Direction Download 29000|") (by decide) h1
      unfold lockStep
      simp only [hp, if_true, hS1, hS2]
    · intro h1
      have hS2 := sendClient_literal net _ conn (ascii "$Direction Download 29000|")
        (by decide) h1
      constructor
      · intro h2
        rw [← e2] at h2
        have hS3 := sendClient_refused net _ conn (ascii "$Key %s|") [Arg.str (LockToKey f)] _
          (Sprintf_key _) h2
        unfold lockStep
        simp only [hp, if_true, hS1, hS2, hf, hS3]
      · intro h2
        rw [← e2] at h2
        have hS3 := sendClient_key net _ conn (LockToKey f) h2
        unfold lockStep
        simp only [hp, if_true, hS1, hS2, hf, hS3]
        exact ⟨_, rfl, rfl, rfl⟩

theorem closeAll_ok (ls : List clientListener) (h : ∀ l ∈ ls, l.Messages.closed = false) :
    ∃ cs, closeAll ls = .ok cs :=
  ⟨_, closeAll_open ls h⟩

theorem adcsndStep_spec (sched : Nat → Nat → Bool) (maxAlloc : Nat) (msg : Str)
    (s : PeerSession) (f : Str)
    (hF : (Fields msg)[4]? = some f) (hp : Fits s.m 2) :
    (Atoi (f.take (f.length - 1)) = none →
      adcsndStep sched maxAlloc msg s = .error .fatal) ∧
    (∀ n : Int, Atoi (f.take (f.length - 1)) = some n → 0 ≤ n → n.toNat ≤ maxAlloc →
      (s.reader.length < n.toNat → adcsndStep sched maxAlloc msg s = .error .fatal) ∧
      (n.toNat ≤ s.reader.length → ∃ s4, adcsndStep sched maxAlloc msg s = .ok s4)) := by
  have hlen := Fields_getElem_ne_nil msg 4 f hF
  constructor
  · intro hA
    unfold adcsndStep
    simp only [hF, hlen, if_false, hA]
  · intro n hA hn hmax
    have hneg : ¬ (n < 0 ∨ maxAlloc < n.toNat) := by omega
    constructor
    · intro hshort
      unfold adcsndStep
      have hR : ReadFull s.reader n.toNat = none := by
        unfold ReadFull
        rw [if_neg (by omega)]
      simp only [hF, hlen, if_false, hA, hneg, hR]
    · intro hle
      unfold adcsndStep
      have hR : ReadFull s.reader n.toNat =
          some (s.reader.take n.toNat, s.reader.drop n.toNat) := by
        unfold ReadFull
        rw [if_pos hle]
      obtain ⟨s1, hpub, hf1, -, -, -⟩ := publishBoth_fits sched
        (Msg.bytes (s.reader.take n.toNat)) { s with reader := s.reader.drop n.toNat } 0 hp
      simp only [hF, hlen, if_false, hA, hneg, hR, hpub]
      have hopen : ∀ l ∈ (match s1.cls with
          | none => []
          | some k => (s1.m k).getD []), l.Messages.closed = false := by
        intro l hl
        cases hc : s1.cls with
        | none => rw [hc] at hl; simp at hl
        | some k =>
          rw [hc] at hl
          cases hq : s1.m k with
          | none => simp [hq] at hl
          | some pool =>
            simp only [hq, Option.getD_some] at hl
            exact ((hf1 k pool hq).2 l hl).1
      obtain ⟨cs, hcs⟩ := closeAll_ok _ hopen
      simp only [hcs]
      exact ⟨_, rfl⟩

theorem handleLine_tail (env : PeerEnv) (conn : Nat) (msg : Str) (s s1 s2 : PeerSession)
    (h1 : myNickStep env.net conn msg s = .ok s1)
    (h2 : lockStep env.LockToKey env.net conn msg s1 = .ok s2)
    (hfits : Fits s2.m 4) (hrd : s2.reader = s.reader)
    (hadc : HasPrefix msg (ascii "$ADCSND file") = true →
      ∃ f, (Fields msg)[4]? = some f ∧
        ∀ n : Int, Atoi (f.take (f.length - 1)) = some n → 0 ≤ n ∧ n.toNat ≤ env.maxAlloc) :
    (badTransfer msg s.reader → handleLine env conn msg s = .error .fatal) ∧
    (¬ badTransfer msg s.reader →
      ∃ s3, handleLine env conn msg s = .ok (s3, HasPrefix msg (ascii "$ADCSND file"))) := by
  obtain ⟨s3, h3, hf3, hr3, -, -⟩ := publishBoth_fits env.sched (Msg.str msg) s2 2 hfits
  have hr : s3.reader = s.reader := hr3.trans hrd
  unfold handleLine
  rw [h1]
  simp only [h2, h3]
  by_cases hp : HasPrefix msg (ascii "$ADCSND file") = true
  · obtain ⟨f, hF, hnn⟩ := hadc hp
    obtain ⟨hnone, hsome⟩ := adcsndStep_spec env.sched env.maxAlloc msg s3 f hF hf3
    simp only [hp, if_true]
    cases hA : Atoi (f.take (f.length - 1)) with
    | none =>
      constructor
      · intro _
        rw [hnone hA]
      · intro hb
        exact absurd ⟨hp, f, hF, Or.inl hA⟩ hb
    | some n =>
      obtain ⟨hshort, hfull⟩ := hsome n hA (hnn n hA).1 (hnn n hA).2
      by_cases hlt : s.reader.length < n.toNat
      · constructor
        · intro _
          rw [hshort (by simpa [hr] using hlt)]
        · intro hb
          exact absurd ⟨hp, f, hF, Or.inr ⟨n, hA, hlt⟩⟩ hb
      · constructor
        · intro hb
          obtain ⟨_, g, hG, hg⟩ := hb
          rw [hF] at hG
          cases hG
          rcases hg with hg | ⟨k, hk, hkl⟩
          · rw [hA] at hg; cases hg
          · rw [hA] at hk
            cases hk
            exact absurd hkl hlt
        · intro _
          obtain ⟨s4, h4⟩ := hfull (by rw [hr]; omega)
          rw [h4]
          exact ⟨s4, rfl⟩
  · simp only [hp, if_false]
    constructor
    · intro hb
      exact absurd hb.1 hp
    · intro _
      simp only [Bool.false_eq_true, if_false]
      exact ⟨_, rfl⟩

/-- C10, amended. For every `|`-terminated line that has the fields the code
indexes (a second field when it begins with `$Lock`, a fifth when it begins
with `$ADCSND file`) and a size field that is neither negative nor above
the largest byte slice `make` allocates, when every registered listener has
an open queue and those not cancelled have room for four messages:
processing the line takes the fatal exit exactly when the connection
refuses a reply to the line, or the line is an `$ADCSND file` line whose
size field is not an integer or announces more bytes than the connection
delivers; in every other case it continues the session, or ends it at an
`$ADCSND file` line. A `$MyNick ` line always has the field the code
indexes. -/
theorem handleLine_fatal_iff_refused_or_bad_transfer (env : PeerEnv) (conn : Nat) (msg : Str)
    (s : PeerSession)
    (hbar : msg.getLast? = some 0x7C)
    (hfits : Fits s.m 4)
    (hlock : HasPrefix msg (ascii "$Lock") = true → ∃ f, (Fields msg)[1]? = some f)
    (hadc : HasPrefix msg (ascii "$ADCSND file") = true →
      ∃ f, (Fields msg)[4]? = some f ∧
        ∀ n : Int, Atoi (f.take (f.length - 1)) = some n → 0 ≤ n ∧ n.toNat ≤ env.maxAlloc) :
    (refused env conn msg s.written ∨ badTransfer msg s.reader →
      handleLine env conn msg s = .error .fatal) ∧
    (¬ (refused env conn msg s.written ∨ badTransfer msg s.reader) →
      ∃ s1, handleLine env conn msg s = .ok (s1, HasPrefix msg (ascii "$ADCSND file"))) := by
  by_cases hmy : HasPrefix msg (ascii "$MyNick ") = true
  · obtain ⟨hnl, hna⟩ := myNick_not_lock msg hmy
    obtain ⟨hfat, hok⟩ := myNickStep_cases env.net conn msg s hbar hmy
    have hrep : repliesTo env.LockToKey msg =
        [ascii "$Lock EXTENDEDPROTOCOL/wut? Pk=gdc,Ref=10.109.49.49:411|"] := by
      simp [repliesTo, hmy, hnl]
    cases hacc : env.net.accepts s.written conn with
    | false =>
      have hl : handleLine env conn msg s = .error .fatal := by
        unfold handleLine
        rw [hfat hacc]
      refine ⟨fun _ => hl, fun hn => absurd (Or.inl ⟨0, ?_, ?_⟩) hn⟩
      · rw [hrep]; simp
      · rw [hrep]; simpa using hacc
    | true =>
      obtain ⟨s1, h1, hr1, hF1⟩ := hok hacc
      have h2 : lockStep env.LockToKey env.net conn msg s1 = .ok s1 := by
        unfold lockStep
        simp [hnl]
      obtain ⟨hb, hnb⟩ := handleLine_tail env conn msg s s1 s1 h1 h2 (hF1 4 hfits) hr1 hadc
      have hnr : ¬ refused env conn msg s.written := by
        rintro ⟨k, hk, hacck⟩
        rw [hrep] at hk hacck
        have hk0 : k = 0 := by simpa using hk
        subst hk0
        simp [hacc] at hacck
      exact ⟨fun h => h.elim (fun hr => absurd hr hnr) hb,
        fun h => hnb (fun hb1 => h (Or.inr hb1))⟩
  · have h1 : myNickStep env.net conn msg s = .ok s := by
      unfold myNickStep
      simp [hmy]
    by_cases hlk : HasPrefix msg (ascii "$Lock") = true
    · obtain ⟨f, hf⟩ := hlock hlk
      have hrep : repliesTo env.LockToKey msg =
          [ascii "$Supports MiniSlots XmlBZList ADCGet TTHL TTHF|",
           ascii "$Direction Download 29000|",
           ascii "$Key " ++ env.LockToKey f ++ ascii "|"] := by
        simp [repliesTo, hmy, hlk, hf]
      obtain ⟨hfat0, hrest0⟩ := lockStep_cases env.LockToKey env.net conn msg s f hlk hf
      have fatal_of : lockStep env.LockToKey env.net conn msg s = .error .fatal →
          handleLine env conn msg s = .error .fatal := by
        intro h
        unfold handleLine
        rw [h1]
        simp only [h]
      cases hacc0 : env.net.accepts s.written conn with
      | false =>
        refine ⟨fun _ => fatal_of (hfat0 hacc0), fun hn => absurd (Or.inl ⟨0, ?_, ?_⟩) hn⟩
        · rw [hrep]; simp
        · rw [hrep]; simpa using hacc0
      | true =>
        obtain ⟨hfat1, hrest1⟩ := hrest0 hacc0
        cases hacc1 : env.net.accepts (s.written ++
            [(conn, ascii "$Supports MiniSlots XmlBZList ADCGet TTHL TTHF|")]) conn with
        | false =>
          refine ⟨fun _ => fatal_of (hfat1 hacc1), fun hn => absurd (Or.inl ⟨1, ?_, ?_⟩) hn⟩
          · rw [hrep]; simp
          · rw [hrep]; simpa using hacc1
        | true =>
          obtain ⟨hfat2, hrest2⟩ := hrest1 hacc1
          cases hacc2 : env.net.accepts (s.written ++
              [(conn, ascii "$Supports MiniSlots XmlBZList ADCGet TTHL TTHF|"),
               (conn, ascii "$Direction Download 29000|")]) conn with
          | false =>
            refine ⟨fun _ => fatal_of (hfat2 hacc2), fun hn => absurd (Or.inl ⟨2, ?_, ?_⟩) hn⟩
            · rw [hrep]; simp
            · rw [hrep]; simpa using hacc2
          | true =>
            obtain ⟨s2, h2, hr2, hm2⟩ := hrest2 hacc2
            obtain ⟨hb, hnb⟩ := handleLine_tail env conn msg s s s2 h1 h2
              (by rw [hm2]; exact hfits) hr2 hadc
            have hnr : ¬ refused env conn msg s.written := by
              rintro ⟨k, hk, hacck⟩
              rw [hrep] at hk hacck
              simp only [List.length_cons, List.length_nil] at hk
              have hk3 : k = 0 ∨ k = 1 ∨ k = 2 := by omega
              rcases hk3 with e | e | e
              · subst e
                simp [hacc0] at hacck
              · subst e
                simp [hacc1] at hacck
              · subst e
                simp [hacc2] at hacck
            exact ⟨fun h => h.elim (fun hr => absurd hr hnr) hb,
              fun h => hnb (fun hb1 => h (Or.inr hb1))⟩
    · have h2 : lockStep env.LockToKey env.net conn msg s = .ok s := by
        unfold lockStep
        simp [hlk]
      obtain ⟨hb, hnb⟩ := handleLine_tail env conn msg s s s h1 h2 hfits rfl hadc
      have hnr : ¬ refused env conn msg s.written := by
        rintro ⟨k, hk, -⟩
        simp [repliesTo, hmy, hlk] at hk
      exact ⟨fun h => h.elim (fun hr => absurd hr hnr) hb,
        fun h => hnb (fun hb1 => h (Or.inr hb1))⟩

/-- C10, as the claim states it: the process is aborted by lines a peer can
send. On an empty registry, `$ADCSND file a 0 x|` takes the fatal exit;
`$Lock|` and `$ADCSND file|` abort by an index out of range;
`$ADCSND file a 0 -1|` asks for a negative buffer, and
`$ADCSND file a 0 9223372036854775807|` for one above the allocation bound.
A connection that refuses the reply to `$MyNick a|` gives the fatal exit, as
does any line when a live listener has a full queue; a listener whose queue
is already closed gives a panic. -/
theorem handleActiveConn_malformed_lines_abort :
    handleActiveConn exampleEnv ⟨ascii "me", 5⟩ 7 (ascii "1.2.3.4:5")
      (ascii "$ADCSND file a 0 x|") emptyRegistry = .error .fatal ∧
    handleActiveConn exampleEnv ⟨ascii "me", 5⟩ 7 (ascii "1.2.3.4:5")
      (ascii "$Lock|") emptyRegistry = .error .panic ∧
    handleActiveConn exampleEnv ⟨ascii "me", 5⟩ 7 (ascii "1.2.3.4:5")
      (ascii "$ADCSND file|") emptyRegistry = .error .panic ∧
    handleActiveConn exampleEnv ⟨ascii "me", 5⟩ 7 (ascii "1.2.3.4:5")
      (ascii "$ADCSND file a 0 -1|") emptyRegistry = .error .panic ∧
    handleActiveConn exampleEnv ⟨ascii "me", 5⟩ 7 (ascii "1.2.3.4:5")
      (ascii "$ADCSND file a 0 9223372036854775807|") emptyRegistry = .error .panic ∧
    handleActiveConn (refusingEnv 1) ⟨ascii "me", 5⟩ 7 (ascii "1.2.3.4:5")
      (ascii "$MyNick a|") emptyRegistry = .error .fatal ∧
    handleActiveConn exampleEnv ⟨ascii "me", 5⟩ 7 (ascii "1.2.3.4:5")
      (ascii "$Hi|") fullRegistry = .error .fatal ∧
    handleActiveConn exampleEnv ⟨ascii "me", 5⟩ 7 (ascii "1.2.3.4:5")
      (ascii "$Hi|") closedRegistry = .error .panic :=
  ⟨rfl, rfl, rfl, rfl, rfl, rfl, rfl, rfl⟩

theorem exampleRegistry_fits : Fits exampleRegistry 4 := by
  intro k pool hp
  unfold exampleRegistry at hp
  split_ifs at hp
  · cases hp
    decide
  · cases hp
    decide

/-- C10, amended, on a working network: the line `$ADCSND file a 0 x|`,
whose size field is not an integer, takes the fatal exit, and the line
`$Lock XYZ|`, with one listener on `*` and two on `Bob`, continues the
session. -/
theorem handleLine_fatal_iff_refused_or_bad_transfer_witness :
    handleLine exampleEnv 7 (ascii "$ADCSND file a 0 x|")
      (startSession emptyRegistry [] (ascii "1.2.3.4:5")) = .error .fatal ∧
    ∃ s1, handleLine exampleEnv 7 (ascii "$Lock XYZ|")
      (startSession exampleRegistry [] (ascii "1.2.3.4:5")) = .ok (s1, false) :=
  ⟨(handleLine_fatal_iff_refused_or_bad_transfer exampleEnv 7 (ascii "$ADCSND file a 0 x|")
      (startSession emptyRegistry [] (ascii "1.2.3.4:5")) (by decide)
      (fun k pool h => by simp [startSession, emptyRegistry] at h)
      (fun h => absurd h (by decide))
      (fun _ => ⟨ascii "x|", by decide, fun n h =>
        absurd ((show Atoi ((ascii "x|").take ((ascii "x|").length - 1)) = none by decide).symm.trans h)
          (by simp)⟩)).1
      (Or.inr ⟨by decide, ascii "x|", by decide, Or.inl (by decide)⟩),
   (handleLine_fatal_iff_refused_or_bad_transfer exampleEnv 7 (ascii "$Lock XYZ|")
      (startSession exampleRegistry [] (ascii "1.2.3.4:5")) (by decide)
      exampleRegistry_fits
      (fun _ => ⟨ascii "XYZ|", by decide⟩)
      (fun h => absurd h (by decide))).2
      (fun h => h.elim
        (fun hr => hr.elim fun k hk => absurd hk.2 (by simp [exampleEnv, Net.working]))
        (fun hb => absurd hb.1 (by decide)))⟩

/-- C6, as the claim states it: the transfer `Bob`, `foo.txt 0 5`, `hello`
does not always reach the listeners. With a listener on `*` whose queue is
full the session takes the fatal exit before it reads the payload; so it
does when the connection refuses the `$Key` reply. With an empty file name
the session aborts by an index out of range, and with a payload of 2^48 + 1
bytes by the allocation of the buffer; a listener on `*` whose queue is
already closed gives a panic. A cancelled listener of `Bob` whose `Done`
case is taken has its queue closed with nothing in it. -/
theorem handleActiveConn_transfer_aborts_or_skips_listener :
    handleActiveConn exampleEnv ⟨ascii "me", 5⟩ 7 (ascii "1.2.3.4:5")
      (ascii "$MyNick Bob|$Lock XYZ|$ADCSND file foo.txt 0 5|hello") fullRegistry = .error .fatal ∧
    handleActiveConn (refusingEnv 4) ⟨ascii "me", 5⟩ 7 (ascii "1.2.3.4:5")
      (ascii "$MyNick Bob|$Lock XYZ|$ADCSND file foo.txt 0 5|hello") emptyRegistry = .error .fatal ∧
    handleActiveConn exampleEnv ⟨ascii "me", 5⟩ 7 (ascii "1.2.3.4:5")
      (peerInput (ascii "Bob") [] (ascii "0") (ascii "5") (ascii "hello") []) emptyRegistry =
        .error .panic ∧
    ((List.replicate 281474976710657 0 : Str).length = 281474976710657 ∧
      handleActiveConn exampleEnv ⟨ascii "me", 5⟩ 7 (ascii "1.2.3.4:5")
        (peerInput (ascii "Bob") (ascii "foo.txt") (ascii "0") (ascii "281474976710657")
          (List.replicate 281474976710657 0) []) emptyRegistry = .error .panic) ∧
    handleActiveConn exampleEnv ⟨ascii "me", 5⟩ 7 (ascii "1.2.3.4:5")
      (ascii "$MyNick Bob|$Lock XYZ|$ADCSND file foo.txt 0 5|hello") closedRegistry = .error .panic ∧
    ∃ s, handleActiveConn exampleEnv ⟨ascii "me", 5⟩ 7 (ascii "1.2.3.4:5")
        (ascii "$MyNick Bob|$Lock XYZ|$ADCSND file foo.txt 0 5|hello") cancelledRegistry = .ok s ∧
      s.closed = [⟨⟨[], 100, true⟩, true⟩] :=
  ⟨rfl, rfl, rfl,
   ⟨List.length_replicate _ _,
    handleActiveConn_over_limit exampleEnv ⟨ascii "me", 5⟩ 7 (ascii "1.2.3.4:5") (ascii "Bob")
      (ascii "foo.txt") (ascii "0") (ascii "281474976710657") (List.replicate 281474976710657 0) []
      emptyRegistry 281474976710657 (by decide) (by decide) (by decide) (by decide) (by decide)
      (by decide) (by decide) (by decide) (by decide) (Or.inr (by decide)) (fun _ _ => rfl)
      (fun pool h => by simp [emptyRegistry] at h) (fun pool h => by simp [emptyRegistry] at h)⟩,
   rfl, ⟨_, rfl, rfl⟩⟩

theorem exampleRegistry_room :
    RoomAt exampleRegistry (ascii "Bob") (if ascii "Bob" = ascii "*" then 8 else 4) ∧
    RoomAt exampleRegistry (ascii "*") (if ascii "Bob" = ascii "*" then 8 else 4) := by
  have hB : exampleRegistry (ascii "Bob") =
      some [⟨Chan.make 100, false⟩, ⟨⟨[Msg.str (ascii "$x|")], 100, false⟩, false⟩] := by decide
  have hS : exampleRegistry (ascii "*") = some [⟨Chan.make 100, false⟩] := by decide
  constructor
  · intro pool hp
    rw [hB] at hp
    cases hp
    decide
  · intro pool hp
    rw [hS] at hp
    cases hp
    decide

/-- C6, amended, at nick `Bob`, `foo.txt 0 5` and the payload `hello`, with
one listener on `*` and two on `Bob`, on a working network. -/
theorem handleActiveConn_publishes_payload_and_removes_topic_witness :
    ∃ s, handleActiveConn exampleEnv ⟨ascii "me", 5⟩ 7 (ascii "1.2.3.4:5")
        (ascii "$MyNick Bob|$Lock XYZ|$ADCSND file foo.txt 0 5|hello") exampleRegistry = .ok s ∧
      s.reader = [] ∧
      s.m (ascii "Bob") = none ∧
      s.m (ascii "*") = some [⟨⟨[Msg.str (ascii "$MyNick Bob|"), Msg.str (ascii "$Lock XYZ|"),
        Msg.str (ascii "$ADCSND file foo.txt 0 5|"), Msg.bytes (ascii "hello")], 100, false⟩, false⟩] ∧
      s.closed =
        [⟨⟨[Msg.str (ascii "$MyNick Bob|"), Msg.str (ascii "$Lock XYZ|"),
            Msg.str (ascii "$ADCSND file foo.txt 0 5|"), Msg.bytes (ascii "hello")], 100, true⟩, false⟩,
         ⟨⟨[Msg.str (ascii "$x|"), Msg.str (ascii "$MyNick Bob|"), Msg.str (ascii "$Lock XYZ|"),
            Msg.str (ascii "$ADCSND file foo.txt 0 5|"), Msg.bytes (ascii "hello")], 100, true⟩, false⟩] ∧
      s.written = [(7, ascii "$MyNick me|"),
        (7, ascii "$Lock EXTENDEDPROTOCOL/wut? Pk=gdc,Ref=10.109.49.49:411|"),
        (7, ascii "$Supports MiniSlots XmlBZList ADCGet TTHL TTHF|"),
        (7, ascii "$Direction Download 29000|"), (7, ascii "$Key XYZ||")] :=
  have h := handleActiveConn_publishes_payload_and_removes_topic exampleEnv
    ⟨ascii "me", 5⟩ 7 (ascii "1.2.3.4:5") (ascii "Bob") (ascii "foo.txt") (ascii "0") (ascii "5")
    (ascii "hello") [] exampleRegistry (by decide) (by decide) (by decide) (by decide) (by decide)
    (by decide) (by decide) (by decide) (by decide) (by decide) (fun _ _ => rfl)
    exampleRegistry_room.1 exampleRegistry_room.2
  h.elim fun s hs => ⟨s, hs.1, hs.2.1, hs.2.2.1,
    (hs.2.2.2.1 (ascii "*") (by decide)).trans (by decide), hs.2.2.2.2.1.trans (by decide),
    hs.2.2.2.2.2.2.trans (by decide)⟩

/-! ### The size field in decimal -/

theorem parseDigits_append (a b : Str) : ∀ acc, parseDigits (a ++ b) acc =
    match parseDigits a acc with
    | none => none
    | some v => parseDigits b v := by
  induction a with
  | nil => intro acc; simp [parseDigits]
  | cons c t ih =>
    intro acc
    simp only [List.cons_append, parseDigits]
    split_ifs
    · exact ih _
    · rfl

theorem digitChar_toNat (k : Nat) (h : k < 10) : (Nat.digitChar k).toNat = 48 + k := by
  interval_cases k <;> rfl

theorem toDigitsCore_append (fuel : Nat) : ∀ (n : Nat) (ds : List Char),
    Nat.toDigitsCore 10 fuel n ds = Nat.toDigitsCore 10 fuel n [] ++ ds := by
  induction fuel with
  | zero => intro n ds; simp [Nat.toDigitsCore]
  | succ f ih =>
    intro n ds
    simp only [Nat.toDigitsCore]
    split_ifs
    · simp
    · rw [ih _ (_ :: ds), ih _ [_]]
      simp

theorem parseDigits_toDigitsCore (fuel : Nat) : ∀ (n : Nat), n < fuel →
    ∀ acc, ∃ k, parseDigits ((Nat.toDigitsCore 10 fuel n []).map Char.toNat) acc =
      some (acc * 10 ^ k + n) := by
  induction fuel with
  | zero => intro n h; omega
  | succ f ih =>
    intro n h acc
    simp only [Nat.toDigitsCore]
    have hd : (Nat.digitChar (n % 10)).toNat = 48 + n % 10 :=
      digitChar_toNat _ (Nat.mod_lt _ (by decide))
    by_cases h0 : n / 10 = 0
    · simp only [h0, if_true, List.map_cons, List.map_nil, parseDigits, hd]
      have hn : n % 10 = n := by omega
      refine ⟨1, ?_⟩
      rw [if_pos (by omega)]
      simp only [Option.some.injEq]
      omega
    · simp only [h0, if_false]
      rw [toDigitsCore_append, List.map_append, parseDigits_append]
      obtain ⟨k, hk⟩ := ih (n / 10) (by omega) acc
      rw [hk]
      simp only [List.map_cons, List.map_nil, parseDigits, hd]
      refine ⟨k + 1, ?_⟩
      rw [if_pos (by omega)]
      simp only [Option.some.injEq]
      have := Nat.div_add_mod n 10
      rw [pow_succ]
      have e : 48 + n % 10 - 48 = n % 10 := by omega
      rw [e]
      nlinarith [this]

/-- The size field written as the decimal digits of `n` is read by Atoi as
`n`, for every `n` in the range of `int`. -/
theorem Atoi_decimal (n : Nat) (h : n < 2 ^ 63) : Atoi (decimal n) = some (n : Int) := by
  obtain ⟨k, hk⟩ := parseDigits_toDigitsCore (n + 1) n (by omega) 0
  simp only [Nat.zero_mul, Nat.zero_add] at hk
  have hne : decimal n ≠ [] := by
    intro e
    have : parseDigits (decimal n) 0 = some 0 := by rw [e]; rfl
    unfold decimal Nat.toDigits at this e
    rw [hk] at this
    have hn : n = 0 := by simpa using this
    subst hn
    revert e
    decide
  unfold decimal Nat.toDigits at hne ⊢
  cases hd : (Nat.toDigitsCore 10 (n + 1) n []).map Char.toNat with
  | nil => exact absurd hd hne
  | cons c t =>
    rw [hd] at hk
    have hc : 48 ≤ c ∧ c ≤ 57 := parseDigits_digits _ 0 _ hk c (List.mem_cons_self _ _)
    have hs : ¬ (c = 45 ∨ c = 43) := by omega
    have h45 : ¬ c = 45 := by omega
    have h43 : ¬ c = 43 := by omega
    have hlt : n < 9223372036854775808 := by simpa using h
    simp [Atoi, h43, hk, h45, hlt]

end Sparrow
